import Mathlib

/-!
# mightymonitor-agent: the delivery pipeline

A shallow embedding of the durable queue (`internal/buffer/buffer.go`), the
delivery client (`internal/client/client.go`) and the send cycle
(`cmd/mightymonitor-agent/main.go`), followed by the theorems that settle the
claims of the specification.

Conventions of the embedding:

* a Go `error` result is an `Option GoError` (`none` is `nil`); a Go
  `(value, error)` result is an `Except GoError value`;
* the file system is a map from paths to file contents; what goes wrong in the
  calls of the operating system on the queue file (creating the directory,
  opening, reading, writing, syncing) is a parameter of each queue operation
  (`ReadFaults`, `WriteFaults`), and of the send cycle (`StorageFaults`); a
  write that fails leaves in the file what it wrote before failing;
* file contents are `String`s, i.e. valid UTF-8 byte sequences;
* `encoding/json` is not part of the repository: the payload codec is a
  parameter (`JSONCodec`), and the properties of it that a theorem relies on
  are hypotheses of that theorem;
* in `backoffWithJitter` a `float64` is the rational it stands for, and a
  `float64` operation is the exact operation followed by rounding to the
  nearest `float64`.
-/

namespace MightyMonitor

/-! ## `internal/metrics/payload.go` -/

/-- A Go `float64`, kept as its IEEE-754 bit pattern. -/
structure Float64 where
  bits : Nat
deriving DecidableEq, Repr

structure CPUPayload where
  Load1 : Float64
  Load5 : Float64
  Load15 : Float64
  Cores : Int
deriving DecidableEq, Repr

structure MemoryPayload where
  TotalBytes : Int
  AvailableBytes : Int
  SwapUsedBytes : Option Int
deriving DecidableEq, Repr

structure DiskPayload where
  TotalBytes : Int
  FreeBytes : Int
deriving DecidableEq, Repr

structure NetworkPayload where
  RxBytesPerSec : Float64
  TxBytesPerSec : Float64
deriving DecidableEq, Repr

structure Payload where
  HostID : String
  Hostname : String
  AgentVersion : String
  TS : Int
  CPU : CPUPayload
  Memory : MemoryPayload
  Disk : DiskPayload
  Network : Option NetworkPayload
  UptimeSeconds : Option Int
deriving DecidableEq, Repr

/-! ## Go errors -/

/-- Errors of `http.Client.Do`, by the classes `isRetryableError` tells apart. -/
inductive TransportError where
  /-- An error for which `errors.Is(err, context.Canceled)` holds. -/
  | canceled
  /-- An error, not of the class before, for which
  `errors.Is(err, context.DeadlineExceeded)` holds. -/
  | deadlineExceeded
  /-- An error, not of the classes before, for which `errors.As` finds a `net.Error`. -/
  | netError (msg : String)
  /-- Any other error. -/
  | other (msg : String)
deriving DecidableEq, Repr

/-- The values of `ctx.Err()` for a context that is done. -/
inductive ContextError where
  | canceled
  | deadlineExceeded
deriving DecidableEq, Repr

/-- The error values that the embedded functions return. -/
inductive GoError where
  /-- The text `payload is required` of `Buffer.Push`. -/
  | payloadRequired
  /-- The value `bufio.ErrTooLong` of a `bufio.Scanner`. -/
  | errTooLong
  /-- An error of `json.Marshal`, `json.Unmarshal` or `Encoder.Encode`. -/
  | jsonError (msg : String)
  /-- An error of `url.Parse`. -/
  | urlError (msg : String)
  /-- The text `Error: server URL must use HTTPS` of `validateServerURL`. -/
  | mustUseHTTPS
  /-- The type `*HTTPError` of the client. -/
  | httpError (StatusCode : Int) (Body : String)
  /-- An error returned by `http.Client.Do`. -/
  | transport (e : TransportError)
  /-- The value `ctx.Err()` of a context that is done. -/
  | contextErr (e : ContextError)
  /-- The text `retry loop exhausted` of `doWithRetry`. -/
  | retryLoopExhausted
  /-- Any error of an external collaborator (config load, metrics collection). -/
  | external (msg : String)
  /-- An error of a call of package `os`, or of a read or a write of an open file. -/
  | osError (msg : String)
deriving DecidableEq, Repr

deriving instance DecidableEq for Except

/-! ## Library functions used by the queue -/

/-- The payload codec of `encoding/json`: `marshal` is the text `Encoder.Encode`
writes for a `*metrics.Payload` (without the newline it appends), `unmarshal` is
`json.Unmarshal` into a `metrics.Payload` (`none` when it returns an error). -/
structure JSONCodec where
  marshal : Payload → Except GoError String
  unmarshal : String → Option Payload

/-- The predicate `unicode.IsSpace`. -/
def isSpace (c : Char) : Bool :=
  c = '\t' || c = '\n' || c.val = 0x0B || c.val = 0x0C || c = '\r' || c = ' ' ||
  c.val = 0x85 || c.val = 0xA0 || c.val = 0x1680 || (0x2000 ≤ c.val && c.val ≤ 0x200A) ||
  c.val = 0x2028 || c.val = 0x2029 || c.val = 0x202F || c.val = 0x205F || c.val = 0x3000

/-- The function `strings.TrimSpace`, on the characters of a string. -/
def trimSpaceChars (l : List Char) : List Char :=
  ((l.dropWhile isSpace).reverse.dropWhile isSpace).reverse

/-- The function `strings.TrimSpace`. -/
def TrimSpace (s : String) : String :=
  String.mk (trimSpaceChars s.data)

/-- The constant `bufio.MaxScanTokenSize`, the buffer limit of a default `bufio.Scanner`. -/
def MaxScanTokenSize : Nat := 64 * 1024

/-- The number of bytes of the UTF-8 encoding of a list of characters. -/
def byteLen (l : List Char) : Nat :=
  (String.mk l).utf8ByteSize

/-- The lines `bufio.ScanLines` cuts the input into, before the carriage return is
dropped: the input is cut after each newline, and what follows the last newline is
a line only when it is not empty. `cur` is the part of the current line already read. -/
def rawLines (cur : List Char) : List Char → List (List Char)
  | [] => if cur = [] then [] else [cur]
  | c :: rest => if c = '\n' then cur :: rawLines [] rest else rawLines (cur ++ [c]) rest

/-- The helper `dropCR` of `bufio.ScanLines`: drops one trailing carriage return. -/
def dropCR (l : List Char) : List Char :=
  if l.getLast? = some '\r' then l.dropLast else l

/-- The tokens a default `bufio.Scanner` yields for the given lines, and its `Err()`
afterwards. A line that does not fit the scanner's buffer (its bytes, the newline
apart, number `MaxScanTokenSize` or more) stops the scan with `bufio.ErrTooLong`. -/
def scanTokens : List (List Char) → List String × Option GoError
  | [] => ([], none)
  | l :: ls =>
    if MaxScanTokenSize ≤ byteLen l then ([], some GoError.errTooLong)
    else ((String.mk (dropCR l)) :: (scanTokens ls).1, (scanTokens ls).2)

/-- Running `bufio.NewScanner(r)` with `scanner.Scan()` until it returns false, over a
reader that yields the given content and then the end of the input. -/
def scan (content : String) : List String × Option GoError :=
  scanTokens (rawLines [] content.data)

/-- An `io.Reader` over a file: the content of the file and, when a read of it fails,
the error of that read with the number of characters read before it. -/
structure Reader where
  content : String
  readErr : Option (Nat × GoError)

/-- Running `bufio.NewScanner(r)` with `scanner.Scan()` until it returns false: the
tokens and `scanner.Err()`. A read that fails ends the input: the scanner cuts what was
read before into tokens as it does at the end of the input, and reports the error of the
read, unless it had stopped before on a line that does not fit its buffer. -/
def scanReader (r : Reader) : List String × Option GoError :=
  match r.readErr with
  | none => scan r.content
  | some (n, err) =>
    match (scan (String.mk (r.content.data.take n))).2 with
    | some tooLong => ((scan (String.mk (r.content.data.take n))).1, some tooLong)
    | none => ((scan (String.mk (r.content.data.take n))).1, some err)

/-! ## `internal/buffer/buffer.go` -/

/-- The file system: the content of the file at each path, `none` when there is none. -/
abbrev FS := String → Option String

/-- The effect of `os.OpenFile(path, O_CREATE|O_TRUNC|O_WRONLY)` followed by writes
that put `content` in the file. -/
def FS.write (fs : FS) (path : String) (content : String) : FS :=
  fun p => if p = path then some content else fs p

def defaultMaxSize : Int := 10

structure Buffer where
  path : String
  maxSize : Int
deriving DecidableEq, Repr

def NewBuffer (path : String) (maxSize : Int) : Buffer :=
  { path := path, maxSize := if maxSize ≤ 0 then defaultMaxSize else maxSize }

/-- The body of the scanning loop of `readAll` for one token: the line is trimmed,
an empty line and a line that does not unmarshal are skipped. -/
def readLine (c : JSONCodec) (text : String) : Option Payload :=
  let line := TrimSpace text
  if line = "" then none else c.unmarshal line

/-- What goes wrong in the calls of the operating system of one `Flush`; nothing, when
both fields are `none`. -/
structure ReadFaults where
  /-- The error of `os.Open`, when it fails for another reason than that the file does
  not exist. -/
  openErr : Option GoError
  /-- The error of the read of the open file that fails, with the number of characters
  read before it. -/
  readErr : Option (Nat × GoError)

/-- What goes wrong in the calls of the operating system of one `writeAll`; nothing,
when every field is `none`. A crash of the process in the middle of `writeAll` leaves in
the file what the failure of the call in progress leaves in it. -/
structure WriteFaults where
  /-- The error of `os.MkdirAll`. -/
  mkdirErr : Option GoError
  /-- The error of `os.OpenFile`. -/
  openErr : Option GoError
  /-- For the item with the given index: the error of the write of its line in
  `enc.Encode`, with the number of characters of the line, the newline included, that
  the write put in the file before it failed. -/
  writeErr : Nat → Option (Nat × GoError)
  /-- The error of `f.Sync`. -/
  syncErr : Option GoError

/-- The function `readAll`. -/
def readAll (c : JSONCodec) (r : Reader) : Except GoError (List Payload) :=
  let items := (scanReader r).1.filterMap (readLine c)
  match (scanReader r).2 with
  | some err => Except.error err
  | none => Except.ok items

/-- The method `Flush`: a file that does not exist is an empty queue, any other error
of `os.Open` is returned. -/
def Buffer.Flush (io : ReadFaults) (c : JSONCodec) (b : Buffer) (fs : FS) :
    Except GoError (List Payload) :=
  match io.openErr with
  | some err => Except.error err
  | none =>
    match fs b.path with
    | none => Except.ok []
    | some content => readAll c { content := content, readErr := io.readErr }

/-- The encoding loop of `writeAll` on a file that holds `content`, from the item with
the given index on: each item is marshalled and its line written with a newline; the
first error of marshalling or writing ends the loop, and a write that fails leaves the
part of the line it wrote. Returns the content of the file and the error. -/
def encodeAll (io : WriteFaults) (c : JSONCodec) (content : String) (index : Nat) :
    List Payload → String × Option GoError
  | [] => (content, none)
  | item :: rest =>
    match c.marshal item with
    | Except.error err => (content, some err)
    | Except.ok line =>
      match io.writeErr index with
      | some (n, err) => (content ++ String.mk ((line ++ "\n").data.take n), some err)
      | none => encodeAll io c (content ++ line ++ "\n") (index + 1) rest

/-- The method `writeAll`: the directory is created, the file is opened with `O_TRUNC`,
which empties it, the items are encoded into it one by one, and it is synced. -/
def Buffer.writeAll (io : WriteFaults) (c : JSONCodec) (b : Buffer) (fs : FS)
    (items : List Payload) : FS × Option GoError :=
  match io.mkdirErr with
  | some err => (fs, some err)
  | none =>
    match io.openErr with
    | some err => (fs, some err)
    | none =>
      (fs.write b.path (encodeAll io c "" 0 items).1,
        match (encodeAll io c "" 0 items).2 with
        | some err => some err
        | none => io.syncErr)

/-- The method `Push`; a nil payload is `none`. The faults are those of its `Flush` and
of its `writeAll`. -/
def Buffer.Push (rio : ReadFaults) (wio : WriteFaults) (c : JSONCodec) (b : Buffer) (fs : FS)
    (payload : Option Payload) : FS × Option GoError :=
  match payload with
  | none => (fs, some GoError.payloadRequired)
  | some p =>
    match b.Flush rio c fs with
    | Except.error err => (fs, some err)
    | Except.ok items =>
      let items := items ++ [p]
      let items :=
        if (items.length : Int) > b.maxSize then
          items.drop ((items.length : Int) - b.maxSize).toNat
        else items
      b.writeAll wio c fs items

def Buffer.Clear (io : WriteFaults) (c : JSONCodec) (b : Buffer) (fs : FS) :
    FS × Option GoError :=
  b.writeAll io c fs []

def Buffer.Count (io : ReadFaults) (c : JSONCodec) (b : Buffer) (fs : FS) :
    Except GoError Int :=
  match b.Flush io c fs with
  | Except.error err => Except.error err
  | Except.ok items => Except.ok (items.length : Int)

def AppendPayload (rio : ReadFaults) (wio : WriteFaults) (c : JSONCodec) (path : String)
    (fs : FS) (payload : Option Payload) : FS × Option GoError :=
  (NewBuffer path defaultMaxSize).Push rio wio c fs payload

/-! ## `internal/config/config.go` and `internal/client/types.go` -/

structure Config where
  HostID : String
  HostToken : String
  ServerURL : String
  AllowInsecureLocalhost : Bool
deriving DecidableEq, Repr

structure IngestResponse where
  Status : String
  ClockSkew : Bool
deriving DecidableEq, Repr

structure BatchResponse where
  Status : String
  Accepted : Int
  Rejected : Int
  Errors : List String
deriving DecidableEq, Repr

structure EnrollResponse where
  HostID : String
  HostToken : String
deriving DecidableEq, Repr

/-! ## `internal/client/client.go` -/

/-- The client; its `httpClient` is the `roundTrip` of the `HTTPEnv`. -/
structure Client where
  serverURL : String
  hostToken : String
  hostID : String
  allowInsecureLocalhost : Bool
deriving DecidableEq, Repr

/-- What `validateServerURL` reads of a parsed `*url.URL`: its `Scheme` and the value
of its `Hostname()`. -/
structure URL where
  Scheme : String
  Hostname : String
deriving DecidableEq, Repr

/-- A request as `postJSON` builds it. -/
structure Request where
  method : String
  url : String
  contentType : String
  authorization : Option String
  body : String
deriving DecidableEq, Repr

structure Response where
  StatusCode : Int
  Body : String
deriving DecidableEq, Repr

/-- The library and the network around the client: `url.Parse`; `net.ParseIP` followed
by `IsLoopback` (`none` when the host is no IP literal); the error, if any, of
`http.NewRequestWithContext` for a URL; and `http.Client.Do`, which answers the attempt
with the given index of a call. -/
structure HTTPEnv where
  parseURL : String → Except GoError URL
  isLoopbackIP : String → Option Bool
  newRequest : String → Option GoError
  roundTrip : Request → Nat → Except TransportError Response

/-- A context: `doneDuring n` is the value of `ctx.Err()` when the context is done
before the backoff after the attempt with index `n` has elapsed, `none` otherwise. -/
structure Context where
  doneDuring : Nat → Option ContextError

/-- The context `context.Background()`, which is never done. -/
def Context.Background : Context := { doneDuring := fun _ => none }

/-- What a call does on the network, in order: the attempts sent and the backoffs slept. -/
inductive Step where
  | attempt (index : Nat) (req : Request)
  | backoff (index : Nat)
deriving DecidableEq, Repr

/-- The function `strings.TrimRight(s, "/")`. -/
def trimRightSlash (s : String) : String :=
  String.mk (s.data.reverse.dropWhile (fun ch => ch = '/')).reverse

def NewClientWithOptions (cfg : Config) (allowInsecureLocalhost : Bool) : Client :=
  { serverURL := trimRightSlash cfg.ServerURL
    hostToken := cfg.HostToken
    hostID := cfg.HostID
    allowInsecureLocalhost := allowInsecureLocalhost }

def NewClient (cfg : Config) : Client :=
  NewClientWithOptions cfg false

def isRetryableStatus (status : Int) : Bool :=
  status = 429 || status = 500 || status = 502 || status = 503 || status = 504

def isRetryableError (err : TransportError) : Bool :=
  match err with
  | TransportError.canceled => false
  | TransportError.deadlineExceeded => true
  | TransportError.netError _ => true
  | TransportError.other _ => false

def IsTransientSendError (err : GoError) : Bool :=
  match err with
  | GoError.httpError status _ => isRetryableStatus status
  | GoError.transport e => isRetryableError e
  | _ => false

/-- Reading at most `n` bytes, as `io.ReadAll(io.LimitReader(r, n))` does; a character
that the limit would cut is left out as a whole. -/
def limitRead (n : Nat) : List Char → List Char
  | [] => []
  | ch :: rest => if ch.utf8Size ≤ n then ch :: limitRead (n - ch.utf8Size) rest else []

/-- The body of a response as the client reads it: at most `1 << 20` bytes. -/
def readBody (resp : Response) : String :=
  String.mk (limitRead (1 <<< 20) resp.Body.data)

def isLocalhost (env : HTTPEnv) (host : String) : Bool :=
  if host = "localhost" || host = "127.0.0.1" || host = "::1" then true
  else
    match env.isLoopbackIP host with
    | none => false
    | some loopback => loopback

def Client.validateServerURL (env : HTTPEnv) (cl : Client) : Option GoError :=
  match env.parseURL cl.serverURL with
  | Except.error err => some err
  | Except.ok parsed =>
    if parsed.Scheme = "https" then none
    else if parsed.Scheme = "http" then
      if cl.allowInsecureLocalhost && isLocalhost env parsed.Hostname then none
      else some GoError.mustUseHTTPS
    else some GoError.mustUseHTTPS

/-- The loop of `doWithRetry`, from the attempt with index `attempt` on; `remaining` is the
number of iterations left, `maxRetries + 1 - attempt`, so that the loop condition
`attempt <= maxRetries` fails exactly when it is 0. -/
def retryLoop (env : HTTPEnv) (ctx : Context) (req : Request) (maxRetries : Int) :
    Nat → Nat → Except GoError Response × List Step
  | 0, _ => (Except.error GoError.retryLoopExhausted, [])
  | remaining + 1, attempt =>
    let wait : Except GoError Response × List Step :=
      match ctx.doneDuring attempt with
      | some e => (Except.error (GoError.contextErr e), [Step.attempt attempt req])
      | none =>
        ((retryLoop env ctx req maxRetries remaining (attempt + 1)).1,
          Step.attempt attempt req :: Step.backoff attempt ::
            (retryLoop env ctx req maxRetries remaining (attempt + 1)).2)
    match env.roundTrip req attempt with
    | Except.ok resp =>
      if !isRetryableStatus resp.StatusCode then (Except.ok resp, [Step.attempt attempt req])
      else if (attempt : Int) = maxRetries then
        (Except.error (GoError.httpError resp.StatusCode (TrimSpace (readBody resp))),
          [Step.attempt attempt req])
      else wait
    | Except.error err =>
      if !isRetryableError err then
        (Except.error (GoError.transport err), [Step.attempt attempt req])
      else if (attempt : Int) = maxRetries then
        (Except.error (GoError.transport err), [Step.attempt attempt req])
      else wait

/-- The method `doWithRetry`; the body of the request is a string, which is read
without error. -/
def Client.doWithRetry (env : HTTPEnv) (_cl : Client) (ctx : Context) (req : Request)
    (maxRetries : Int) : Except GoError Response × List Step :=
  retryLoop env ctx req maxRetries (maxRetries + 1).toNat 0

/-- The closure `makeReq` of `postJSON`. -/
def Client.makeReq (env : HTTPEnv) (cl : Client) (fullURL : String) (encoded : String)
    (withAuth : Bool) : Except GoError Request :=
  match env.newRequest fullURL with
  | some err => Except.error err
  | none =>
    Except.ok
      { method := "POST", url := fullURL, contentType := "application/json",
        authorization := if withAuth then some ("Bearer " ++ cl.hostToken) else none,
        body := encoded }

/-- The method `postJSON`. `encoded` is the result of `json.Marshal(requestBody)`;
`out` is the value `out` points to, `none` for a nil `out`; `unmarshal body v` is
`json.Unmarshal(body, out)` when `out` points to `v`. Returns the error, the value
`out` points to afterwards, and the steps on the network. -/
def Client.postJSON {α : Type} (env : HTTPEnv) (cl : Client) (ctx : Context) (path : String)
    (encoded : Except GoError String) (withAuth : Bool) (out : Option α)
    (unmarshal : String → α → Except GoError α) : Option GoError × Option α × List Step :=
  match encoded with
  | Except.error err => (some err, out, [])
  | Except.ok encoded =>
    let fullURL := cl.serverURL ++ path
    match cl.makeReq env fullURL encoded withAuth with
    | Except.error err => (some err, out, [])
    | Except.ok req =>
      match cl.doWithRetry env ctx req 3 with
      | (Except.error err, steps) => (some err, out, steps)
      | (Except.ok resp, steps) =>
        let bodyBytes := readBody resp
        if resp.StatusCode < 200 || resp.StatusCode ≥ 300 then
          (some (GoError.httpError resp.StatusCode (TrimSpace bodyBytes)), out, steps)
        else
          match out with
          | none => (none, out, steps)
          | some v =>
            if bodyBytes.utf8ByteSize = 0 then (none, out, steps)
            else
              match unmarshal bodyBytes v with
              | Except.error err => (some err, out, steps)
              | Except.ok v1 => (none, some v1, steps)

/-- The wire codec of `encoding/json` for the three calls: `json.Marshal` of the three
request bodies, and `json.Unmarshal` into the three response types. -/
structure WireCodec where
  marshalPayload : Payload → Except GoError String
  marshalBatch : List Payload → Except GoError String
  marshalEnroll : String → String → Except GoError String
  unmarshalIngest : String → IngestResponse → Except GoError IngestResponse
  unmarshalBatch : String → BatchResponse → Except GoError BatchResponse
  unmarshalEnroll : String → EnrollResponse → Except GoError EnrollResponse

/-- The common end of the three calls: the error of `postJSON`, if any, or else the
response value, which is never nil. -/
def callResult {α : Type} (zero : α) (r : Option GoError × Option α × List Step) :
    Except GoError α × List Step :=
  match r with
  | (some err, _, steps) => (Except.error err, steps)
  | (none, some v, steps) => (Except.ok v, steps)
  | (none, none, steps) => (Except.ok zero, steps)

def Client.SendPayload (env : HTTPEnv) (w : WireCodec) (cl : Client) (ctx : Context)
    (payload : Payload) : Except GoError IngestResponse × List Step :=
  match cl.validateServerURL env with
  | some err => (Except.error err, [])
  | none =>
    let response : IngestResponse := { Status := "", ClockSkew := false }
    callResult response
      (cl.postJSON env ctx "/v1/ingest" (w.marshalPayload payload) true (some response)
        w.unmarshalIngest)

def Client.SendBatch (env : HTTPEnv) (w : WireCodec) (cl : Client) (ctx : Context)
    (payloads : List Payload) : Except GoError BatchResponse × List Step :=
  match cl.validateServerURL env with
  | some err => (Except.error err, [])
  | none =>
    let response : BatchResponse := { Status := "", Accepted := 0, Rejected := 0, Errors := [] }
    callResult response
      (cl.postJSON env ctx "/v1/ingest/batch" (w.marshalBatch payloads) true (some response)
        w.unmarshalBatch)

def Client.Enroll (env : HTTPEnv) (w : WireCodec) (cl : Client) (ctx : Context)
    (enrollToken : String) (hostname : String) : Except GoError EnrollResponse × List Step :=
  match cl.validateServerURL env with
  | some err => (Except.error err, [])
  | none =>
    let response : EnrollResponse := { HostID := "", HostToken := "" }
    callResult response
      (cl.postJSON env ctx "/v1/enroll" (w.marshalEnroll enrollToken hostname) false
        (some response) w.unmarshalEnroll)

/-! ## `float64` arithmetic and `backoffWithJitter` -/

/-- Rounding a rational to the nearest integer, a tie to the even one. -/
def roundHalfEven (q : ℚ) : ℤ :=
  if q - ⌊q⌋ < 1 / 2 then ⌊q⌋
  else if 1 / 2 < q - ⌊q⌋ then ⌊q⌋ + 1
  else if ⌊q⌋ % 2 = 0 then ⌊q⌋
  else ⌊q⌋ + 1

/-- The `float64` nearest to a positive rational, a tie to the one with an even
significand: with `e` the binary exponent of `x`, the `float64` values around `x` are
the multiples of `2 ^ (e - 52)`. The exponent range is taken as unlimited (no overflow,
no subnormal numbers). -/
def roundPos (x : ℚ) : ℚ :=
  (roundHalfEven (x * (2 : ℚ) ^ (52 - Int.log 2 x)) : ℚ) / (2 : ℚ) ^ (52 - Int.log 2 x)

/-- The `float64` nearest to a rational, which is the result of a `float64` operation
whose exact result is that rational, and of a conversion to `float64`. -/
def toFloat64 (x : ℚ) : ℚ :=
  if 0 < x then roundPos x else if x < 0 then -roundPos (-x) else 0

/-- The conversion of a `float64` within the range of `int64` to `int64`, which drops
the fraction. -/
def truncate (x : ℚ) : Int :=
  if 0 ≤ x then ⌊x⌋ else ⌈x⌉

/-- The value of an integer as an `int64`. -/
def wrapInt64 (n : Int) : Int :=
  (n + 2 ^ 63) % 2 ^ 64 - 2 ^ 63

/-- The value of the variable `jitter` of `backoffWithJitter` when `rand.Float64()`
returns `r`: the sum `0.75 + r*0.5` in `float64` arithmetic. -/
def jitterOf (r : ℚ) : ℚ :=
  toFloat64 (3 / 4 + toFloat64 (r * (1 / 2)))

/-- The function `backoffWithJitter`, in nanoseconds; `r` is the value that
`rand.Float64()` returns. -/
def backoffWithJitter (attempt : Nat) (r : ℚ) : Int :=
  let base : Int := wrapInt64 (1000000000 * 2 ^ attempt)
  truncate (toFloat64 (toFloat64 (base : ℚ) * jitterOf r))

/-! ## `cmd/mightymonitor-agent/main.go`: the send cycle -/

def defaultBufferPath : String := "/var/lib/mightymonitor/buffer.jsonl"

def legacyBufferPath : String := "/var/lib/mightymonitor/pending-payloads.jsonl"

def defaultBufferSize : Int := 10

def Version : String := "0.1.0"

/-- The two send methods of the client value `cli` that `runSend` calls. -/
structure SendClient where
  SendBatch : List Payload → Except GoError BatchResponse
  SendPayload : Payload → Except GoError IngestResponse

/-- The collaborators of one send cycle: `config.Load(defaultConfigPath)`,
`metrics.Collect()`, `time.Now().Unix()` and the client that
`client.NewClientWithOptions` builds from the configuration. -/
structure CycleEnv where
  loadConfig : Except GoError Config
  collect : Except GoError Payload
  now : Int
  newClient : Config → Bool → SendClient

/-- What goes wrong in the calls of the operating system of one send cycle, by the call
of the queue in which it happens: `runSend` calls `Count` and `Flush` at most once, and
on each of its paths at most one `Clear` and at most one `Push` (a `Flush` followed by a
`writeAll`). -/
structure StorageFaults where
  count : ReadFaults
  flush : ReadFaults
  clear : WriteFaults
  pushRead : ReadFaults
  pushWrite : WriteFaults

/-- The warnings `runSend` logs, one constructor for each `log.Printf`. -/
inductive Warning where
  | loadConfigFailed
  | collectFailed
  | inspectBufferFailed
  | readBufferFailed
  | batchFailedBufferingFailed
  | batchFailedBuffered
  | batchRejectedBufferingFailed
  | batchRejectedBuffered
  | clearBufferFailed
  | sendFailedBufferingFailed
  | sendFailedBuffered
  | clockSkew
deriving DecidableEq, Repr

/-- What one send cycle does besides changing the queue file, in order. -/
inductive Event where
  | sentBatch (pending : List Payload)
  | sentPayload (payload : Payload)
  | logged (w : Warning)
deriving DecidableEq, Repr

def buildPayload (env : CycleEnv) (hostID : String) : Except GoError Payload :=
  match env.collect with
  | Except.error err => Except.error err
  | Except.ok payload =>
    Except.ok { payload with HostID := hostID, AgentVersion := Version, TS := env.now }

/-- The function `migrateLegacyBufferFile`; the two calls of `os.Stat` succeed exactly
when the file exists, and `os.Rename` moves the file. -/
def migrateLegacyBufferFile (fs : FS) (currentPath oldPath : String) : FS :=
  if currentPath = oldPath then fs
  else if (fs currentPath).isSome then fs
  else if (fs oldPath).isNone then fs
  else fun p => if p = currentPath then fs oldPath else if p = oldPath then none else fs p

/-- The last part of `runSend`, from `cli.SendPayload` on; `ev` holds the events so far. -/
def sendCurrent (io : StorageFaults) (c : JSONCodec) (cli : SendClient) (payloadBuffer : Buffer)
    (payload : Payload) (fs : FS) (ev : List Event) : FS × List Event :=
  match cli.SendPayload payload with
  | Except.error _ =>
    match payloadBuffer.Push io.pushRead io.pushWrite c fs (some payload) with
    | (fs1, some _) =>
      (fs1, ev ++ [Event.sentPayload payload, Event.logged Warning.sendFailedBufferingFailed])
    | (fs1, none) =>
      (fs1, ev ++ [Event.sentPayload payload, Event.logged Warning.sendFailedBuffered])
  | Except.ok response =>
    if response.ClockSkew then
      (fs, ev ++ [Event.sentPayload payload, Event.logged Warning.clockSkew])
    else (fs, ev ++ [Event.sentPayload payload])

/-- The part of `runSend` after the queue and the client are set up, from
`payloadBuffer.Count()` on. Returns the file system and the events of the cycle; the Go
function returns a nil error on every path. -/
def sendCycle (io : StorageFaults) (c : JSONCodec) (cli : SendClient) (payloadBuffer : Buffer)
    (payload : Payload) (fs : FS) : FS × List Event :=
  let (bufferedCount, ev0) : Int × List Event :=
    match payloadBuffer.Count io.count c fs with
    | Except.error _ => (0, [Event.logged Warning.inspectBufferFailed])
    | Except.ok n => (n, [])
  if bufferedCount > 0 then
    let (pending, ev1) : List Payload × List Event :=
      match payloadBuffer.Flush io.flush c fs with
      | Except.error _ => ([], ev0 ++ [Event.logged Warning.readBufferFailed])
      | Except.ok pending => (pending, ev0)
    if pending.length > 0 then
      match cli.SendBatch pending with
      | Except.error _ =>
        match payloadBuffer.Push io.pushRead io.pushWrite c fs (some payload) with
        | (fs1, some _) =>
          (fs1, ev1 ++ [Event.sentBatch pending, Event.logged Warning.batchFailedBufferingFailed])
        | (fs1, none) =>
          (fs1, ev1 ++ [Event.sentBatch pending, Event.logged Warning.batchFailedBuffered])
      | Except.ok batchResp =>
        if batchResp.Rejected > 0 then
          match payloadBuffer.Push io.pushRead io.pushWrite c fs (some payload) with
          | (fs1, some _) =>
            (fs1, ev1 ++ [Event.sentBatch pending,
              Event.logged Warning.batchRejectedBufferingFailed])
          | (fs1, none) =>
            (fs1, ev1 ++ [Event.sentBatch pending, Event.logged Warning.batchRejectedBuffered])
        else
          match payloadBuffer.Clear io.clear c fs with
          | (fs1, some _) =>
            sendCurrent io c cli payloadBuffer payload fs1
              (ev1 ++ [Event.sentBatch pending, Event.logged Warning.clearBufferFailed])
          | (fs1, none) =>
            sendCurrent io c cli payloadBuffer payload fs1 (ev1 ++ [Event.sentBatch pending])
    else sendCurrent io c cli payloadBuffer payload fs ev1
  else sendCurrent io c cli payloadBuffer payload fs ev0

/-- The function `runSend`. Returns the file system and the events of the cycle; the
Go function returns a nil error on every path. -/
def runSend (io : StorageFaults) (c : JSONCodec) (env : CycleEnv) (fs : FS) :
    FS × List Event :=
  match env.loadConfig with
  | Except.error _ => (fs, [Event.logged Warning.loadConfigFailed])
  | Except.ok cfg =>
    match buildPayload env cfg.HostID with
    | Except.error _ => (fs, [Event.logged Warning.collectFailed])
    | Except.ok payload =>
      let fs := migrateLegacyBufferFile fs defaultBufferPath legacyBufferPath
      let payloadBuffer := NewBuffer defaultBufferPath defaultBufferSize
      let cli := env.newClient cfg cfg.AllowInsecureLocalhost
      sendCycle io c cli payloadBuffer payload fs

/-- The queue of the send cycle. -/
def payloadBuffer : Buffer := NewBuffer defaultBufferPath defaultBufferSize

/-- The client of a send cycle: the two send methods of the client that
`client.NewClientWithOptions` builds, called with `context.Background()`. -/
def newSendClient (env : HTTPEnv) (w : WireCodec) (cfg : Config)
    (allowInsecureLocalhost : Bool) : SendClient :=
  { SendBatch := fun payloads =>
      ((NewClientWithOptions cfg allowInsecureLocalhost).SendBatch env w Context.Background
        payloads).1
    SendPayload := fun payload =>
      ((NewClientWithOptions cfg allowInsecureLocalhost).SendPayload env w Context.Background
        payload).1 }

/-! ## Notions of the statements -/

/-- The contract of the codec for one payload, as a check: the payload marshals to a
JSON object (a text from an opening to a closing brace) on one line, shorter than a
scanner token, which unmarshals to the payload again. -/
def JSONCodec.roundTrips (c : JSONCodec) (p : Payload) : Bool :=
  match c.marshal p with
  | Except.error _ => false
  | Except.ok line =>
    line.data.head? == some '\x7b' && line.data.getLast? == some '\x7d' &&
    !line.data.contains '\n' && decide (line.utf8ByteSize < 64 * 1024) &&
    c.unmarshal line == some p

/-- The text a payload marshals to, empty when marshalling fails. -/
def JSONCodec.lineOf (c : JSONCodec) (p : Payload) : String :=
  match c.marshal p with
  | Except.error _ => ""
  | Except.ok line => line

/-- The text of a list of items in the queue file: the line of each, with a newline. -/
def encodedText (c : JSONCodec) (items : List Payload) : String :=
  String.join (items.map (fun p => c.lineOf p ++ "\n"))

/-- A `Flush` in which no call of the operating system fails. -/
def noReadFaults : ReadFaults := { openErr := none, readErr := none }

/-- A `writeAll` in which no call of the operating system fails. -/
def noWriteFaults : WriteFaults :=
  { mkdirErr := none, openErr := none, writeErr := fun _ => none, syncErr := none }

/-- A send cycle in which no call of the operating system on the queue file fails. -/
def noFaults : StorageFaults :=
  { count := noReadFaults, flush := noReadFaults, clear := noWriteFaults,
    pushRead := noReadFaults, pushWrite := noWriteFaults }

/-- Pushing the given payloads one after another, no call of the operating system
failing, whatever each `Push` returns. -/
def pushAll (c : JSONCodec) (b : Buffer) (fs : FS) (payloads : List Payload) : FS :=
  payloads.foldl (fun fs p => (b.Push noReadFaults noWriteFaults c fs (some p)).1) fs

/-- The warnings with which `runSend` reports that `Push` returned an error. -/
def bufferingFailed (w : Warning) : Bool :=
  w = Warning.batchFailedBufferingFailed || w = Warning.batchRejectedBufferingFailed ||
    w = Warning.sendFailedBufferingFailed

/-- The last `n` elements of a list. -/
def lastN {α : Type} (n : Nat) (l : List α) : List α := l.drop (l.length - n)

/-- The exchange of `postJSON` with the server: the request is built by `makeReq` and
sent by `doWithRetry` with 3 retries. Returns what `doWithRetry` returns, or the error
of `makeReq`. -/
def Client.exchange (env : HTTPEnv) (cl : Client) (ctx : Context) (path : String)
    (encoded : String) (withAuth : Bool) : Except GoError Response × List Step :=
  match cl.makeReq env (cl.serverURL ++ path) encoded withAuth with
  | Except.error err => (Except.error err, [])
  | Except.ok req => cl.doWithRetry env ctx req 3

/-- The zero values of the three response types, which the calls pass to `postJSON`. -/
def IngestResponse.zero : IngestResponse := { Status := "", ClockSkew := false }

def BatchResponse.zero : BatchResponse :=
  { Status := "", Accepted := 0, Rejected := 0, Errors := [] }

def EnrollResponse.zero : EnrollResponse := { HostID := "", HostToken := "" }

/-- A response with a 2xx status whose body, as the client reads it, is not empty and
does not unmarshal into the value `v`: `json.Unmarshal` returns `err`. -/
def undecodable2xx {α : Type} (unmarshal : String → α → Except GoError α) (v : α)
    (resp : Response) (err : GoError) : Prop :=
  200 ≤ resp.StatusCode ∧ resp.StatusCode < 300 ∧ (readBody resp).utf8ByteSize ≠ 0 ∧
    unmarshal (readBody resp) v = Except.error err

/-- The time one call sleeps in its backoffs, in nanoseconds, when `rand.Float64()`
returns `draws i` in the backoff after the attempt with index `i`. -/
def totalBackoff (draws : Nat → ℚ) (steps : List Step) : Int :=
  (steps.map (fun s => match s with
    | Step.attempt _ _ => 0
    | Step.backoff i => backoffWithJitter i (draws i))).sum

/-- The lines of a text: the pieces between its newlines. -/
def splitNewlines : List Char → List (List Char)
  | [] => [[]]
  | ch :: rest =>
    if ch = '\n' then [] :: splitNewlines rest
    else
      match splitNewlines rest with
      | [] => [[ch]]
      | l :: ls => (ch :: l) :: ls

/-- The lines of a file. -/
def fileLines (content : String) : List String :=
  (splitNewlines content.data).map String.mk

/-- The entries of a queue file: the payloads of its well-formed lines, in file order. A
line is well-formed when, trimmed, it is not empty and unmarshals. -/
def entries (c : JSONCodec) (content : String) : List Payload :=
  (fileLines content).filterMap (readLine c)

/-- The entries of the queue file at `path`; none when there is no file. -/
def queueEntries (c : JSONCodec) (fs : FS) (path : String) : List Payload :=
  match fs path with
  | none => []
  | some content => entries c content

/-- The number of HTTP attempts among the steps of a call. -/
def attempts (steps : List Step) : Nat :=
  steps.countP (fun s => match s with
    | Step.attempt _ _ => true
    | Step.backoff _ => false)

/-- The number of backoffs among the steps of a call. -/
def backoffs (steps : List Step) : Nat :=
  steps.countP (fun s => match s with
    | Step.attempt _ _ => false
    | Step.backoff _ => true)

/-- An outcome of `http.Client.Do` after which `doWithRetry` retries, when attempts are
left: a response with a retryable status, or a retryable error. -/
def retryableOutcome (o : Except TransportError Response) : Bool :=
  match o with
  | Except.ok resp => isRetryableStatus resp.StatusCode
  | Except.error err => isRetryableError err

/-- A sample snapshot, told apart by its timestamp. -/
def samplePayload (ts : Int) : Payload :=
  { HostID := "host-1", Hostname := "web-1", AgentVersion := Version, TS := ts,
    CPU := { Load1 := ⟨0⟩, Load5 := ⟨0⟩, Load15 := ⟨0⟩, Cores := 2 },
    Memory := { TotalBytes := 1024, AvailableBytes := 512, SwapUsedBytes := none },
    Disk := { TotalBytes := 4096, FreeBytes := 2048 },
    Network := none, UptimeSeconds := some 60 }

/-- The line that stands for the sample snapshot with timestamp `ts` in sample files. -/
def sampleLine (ts : Nat) : String :=
  "\x7b\"ts\":" ++ toString ts ++ "\x7d"

/-- A codec for sample data: it knows the sample snapshots with timestamps 1 to 12,
which it writes as `sampleLine`, and nothing else. -/
def sampleCodec : JSONCodec where
  marshal p :=
    match (List.range 13).find?
      (fun (ts : Nat) => decide (0 < ts) && decide (p = samplePayload ts)) with
    | some ts => Except.ok (sampleLine ts)
    | none => Except.error (GoError.jsonError "unsupported value")
  unmarshal s :=
    match (List.range 13).find?
      (fun (ts : Nat) => decide (0 < ts) && decide (s = sampleLine ts)) with
    | some ts => some (samplePayload ts)
    | none => none

/-- The sample snapshots with timestamps `1` to `n`. -/
def samplePayloads (n : Nat) : List Payload :=
  (List.range n).map (fun i => samplePayload (Int.ofNat (i + 1)))

/-- A file system whose queue file holds the sample snapshots `1` to `n`. -/
def sampleQueue (n : Nat) : FS :=
  fun p =>
    if p = defaultBufferPath then
      some (String.join ((List.range n).map (fun i => sampleLine (i + 1) ++ "\n")))
    else none

def sampleConfig : Config :=
  { HostID := "host-1", HostToken := "secret", ServerURL := "https://monitor.example",
    AllowInsecureLocalhost := false }

/-- A cycle environment for sample data: the snapshot built in the cycle is
`samplePayload now`, the client answers every batch send with `batch` and every single
send with `single`. -/
def sampleEnv (now : Int) (batch : Except GoError BatchResponse)
    (single : Except GoError IngestResponse) : CycleEnv :=
  { loadConfig := Except.ok sampleConfig
    collect := Except.ok (samplePayload 0)
    now := now
    newClient := fun _ _ => { SendBatch := fun _ => batch, SendPayload := fun _ => single } }

/-- A `writeAll` in which `os.OpenFile` fails. -/
def openFails : WriteFaults :=
  { noWriteFaults with openErr := some (GoError.osError "too many open files") }

/-- A `writeAll` in which the write of the item with index `i` fails after it has put
`n` characters in the file. -/
def writeFails (i n : Nat) : WriteFaults :=
  { noWriteFaults with
    writeErr := fun j =>
      if j = i then some (n, GoError.osError "no space left on device") else none }

/-- A snapshot with a host name of 70000 characters. -/
def longPayload : Payload :=
  { samplePayload 13 with Hostname := String.mk (List.replicate 70000 'x') }

/-- The characters of the line that stands for `longPayload` in sample files: a JSON
object of 70002 bytes. -/
def longLine : List Char := '\x7b' :: (List.replicate 70000 'x' ++ ['\x7d'])

/-- The sample codec, extended with `longPayload`: a snapshot with timestamp 13 is
written as `longLine`, and a line that starts as `longLine` does is read as
`longPayload`. -/
def longLineCodec : JSONCodec where
  marshal p := if p.TS = 13 then Except.ok (String.mk longLine) else sampleCodec.marshal p
  unmarshal s :=
    if s.data.take 2 = ['\x7b', 'x'] then some longPayload else sampleCodec.unmarshal s

/-- A cycle environment for sample data in which the snapshot built is `longPayload`. -/
def longEnv (batch : Except GoError BatchResponse)
    (single : Except GoError IngestResponse) : CycleEnv :=
  { loadConfig := Except.ok sampleConfig
    collect := Except.ok longPayload
    now := 13
    newClient := fun _ _ => { SendBatch := fun _ => batch, SendPayload := fun _ => single } }

/-- A cut-down `url.Parse` for sample URLs of the forms `scheme://host/path` and
`scheme://host:port/path`, the path being optional: the scheme is lower-cased, the
hostname is the host without brackets and port. -/
def sampleParseURL (s : String) : Except GoError URL :=
  let scheme := s.data.takeWhile (fun ch => ch ≠ ':')
  let rest := (s.data.dropWhile (fun ch => ch ≠ ':')).drop 1
  if scheme.length = s.data.length then Except.ok { Scheme := "", Hostname := "" }
  else if scheme = [] then Except.error (GoError.urlError "missing protocol scheme")
  else if rest.take 2 = ['/', '/'] then
    let authority := (rest.drop 2).takeWhile (fun ch => ch ≠ '/')
    let host :=
      if authority.head? = some '[' then (authority.drop 1).takeWhile (fun ch => ch ≠ ']')
      else authority.takeWhile (fun ch => ch ≠ ':')
    Except.ok { Scheme := String.mk (scheme.map Char.toLower), Hostname := String.mk host }
  else Except.ok { Scheme := String.mk (scheme.map Char.toLower), Hostname := "" }

/-- The parts of a host name between its dots. -/
def splitDots (cur : List Char) : List Char → List (List Char)
  | [] => [cur]
  | ch :: rest => if ch = '.' then cur :: splitDots [] rest else splitDots (cur ++ [ch]) rest

/-- A decimal number of an IPv4 literal: one to three digits, at most 255. -/
def decimalOctet (l : List Char) : Option Nat :=
  if l = [] ∨ 3 < l.length ∨ l.all Char.isDigit = false ∨ (1 < l.length ∧ l.head? = some '0')
  then none
  else
    let n := l.foldl (fun acc ch => 10 * acc + (ch.toNat - '0'.toNat)) 0
    if n ≤ 255 then some n else none

/-- A cut-down `net.ParseIP` with `IsLoopback`, for IPv4 literals in dotted decimal: an
address is loopback when its first number is 127. -/
def sampleIsLoopbackIP (host : String) : Option Bool :=
  match (splitDots [] host.data).map decimalOctet with
  | [some a, some _, some _, some _] => some (decide (a = 127))
  | _ => none

/-- A sample environment: the cut-down library above, requests that can always be
built, and a server that answers the attempt with index `n` of every call with
`answers n`. -/
def sampleHTTPEnv (answers : Nat → Except TransportError Response) : HTTPEnv :=
  { parseURL := sampleParseURL
    isLoopbackIP := sampleIsLoopbackIP
    newRequest := fun _ => none
    roundTrip := fun _ n => answers n }

/-- A wire codec for sample data: requests are marshalled to fixed texts, and the one
response body it can unmarshal is an empty JSON object, which changes nothing. -/
def sampleWire : WireCodec :=
  { marshalPayload := fun _ => Except.ok "\x7b\"ts\":1\x7d"
    marshalBatch := fun _ => Except.ok "\x7b\"snapshots\":[]\x7d"
    marshalEnroll := fun _ _ => Except.ok "\x7b\"token\":\"t\"\x7d"
    unmarshalIngest := fun body v =>
      if body = "\x7b\x7d" then Except.ok v else Except.error (GoError.jsonError "invalid")
    unmarshalBatch := fun body v =>
      if body = "\x7b\x7d" then Except.ok v else Except.error (GoError.jsonError "invalid")
    unmarshalEnroll := fun body v =>
      if body = "\x7b\x7d" then Except.ok v else Except.error (GoError.jsonError "invalid") }

/-- A sample client for the given server URL. -/
def sampleClient (serverURL : String) (allowInsecureLocalhost : Bool) : Client :=
  NewClientWithOptions { sampleConfig with ServerURL := serverURL } allowInsecureLocalhost

/-- A sample request. -/
def sampleRequest : Request :=
  { method := "POST", url := "https://monitor.example/v1/ingest",
    contentType := "application/json", authorization := some "Bearer secret",
    body := "\x7b\"ts\":1\x7d" }

/-- A cycle environment for sample data with the client of `client.go`: the snapshot
built in the cycle is `samplePayload now`, and the client talks to the given server. -/
def sampleClientEnv (now : Int) (henv : HTTPEnv) : CycleEnv :=
  { loadConfig := Except.ok sampleConfig
    collect := Except.ok (samplePayload 0)
    now := now
    newClient := newSendClient henv sampleWire }

/-! # Theorems -/

/-! ## Lines, tokens and `readAll` -/

theorem rawLines_append_newline (s : List Char) (cur rest : List Char) (h : '\n' ∉ s) :
    rawLines cur (s ++ '\n' :: rest) = (cur ++ s) :: rawLines [] rest := by
  induction s generalizing cur with
  | nil => simp [rawLines]
  | cons a s ih =>
    have ha : a ≠ '\n' := fun e => h (by simp [e])
    have hs : '\n' ∉ s := fun e => h (by simp [e])
    simp [rawLines, ha, ih _ hs]

theorem rawLines_no_newline (s : List Char) (cur : List Char) (h : '\n' ∉ s) :
    rawLines cur s = if cur ++ s = [] then [] else [cur ++ s] := by
  induction s generalizing cur with
  | nil => simp [rawLines]
  | cons a s ih =>
    have ha : a ≠ '\n' := fun e => h (by simp [e])
    have hs : '\n' ∉ s := fun e => h (by simp [e])
    simp [rawLines, ha, ih _ hs]

theorem isSpace_cr : isSpace '\r' = true := by decide

theorem dropWhile_append_of_exists {α : Type} (f : α → Bool) (m t : List α)
    (h : ∃ x ∈ m, f x ≠ true) : (m ++ t).dropWhile f = m.dropWhile f ++ t := by
  induction m with
  | nil => simp at h
  | cons a m ih =>
    by_cases ha : f a = true
    · simp only [List.cons_append, List.dropWhile_cons, ha, if_true]
      obtain ⟨x, hx, hxs⟩ := h
      rcases List.mem_cons.1 hx with rfl | hx'
      · exact absurd ha hxs
      · exact ih ⟨x, hx', hxs⟩
    · simp [List.dropWhile_cons, ha]

theorem trimSpaceChars_dropCR (l : List Char) :
    trimSpaceChars (dropCR l) = trimSpaceChars l := by
  unfold dropCR
  split
  · rename_i h
    obtain ⟨m, rfl⟩ : ∃ m, l = m ++ ['\r'] := by
      rcases List.eq_nil_or_concat l with rfl | ⟨m, a, rfl⟩
      · simp at h
      · simp at h; exact ⟨m, by simp [h]⟩
    simp only [List.dropLast_concat, trimSpaceChars]
    by_cases hm : ∀ x ∈ m, isSpace x = true
    · have h1 : m.dropWhile isSpace = [] := by
        simpa [List.dropWhile_eq_nil_iff] using hm
      have h2 : (m ++ ['\r']).dropWhile isSpace = [] := by
        rw [List.dropWhile_eq_nil_iff]
        intro x hx
        simp at hx
        rcases hx with hx | rfl
        · exact hm x hx
        · exact isSpace_cr
      simp [h1, h2]
    · have h3 : (m ++ ['\r']).dropWhile isSpace = m.dropWhile isSpace ++ ['\r'] := by
        push_neg at hm
        exact dropWhile_append_of_exists _ _ _ hm
      rw [h3]
      simp [List.dropWhile_cons, isSpace_cr]
  · rfl

theorem readLine_dropCR (c : JSONCodec) (l : List Char) :
    readLine c (String.mk (dropCR l)) = readLine c (String.mk l) := by
  simp [readLine, TrimSpace, trimSpaceChars_dropCR]

theorem scanTokens_short (ls : List (List Char))
    (h : ∀ l ∈ ls, byteLen l < MaxScanTokenSize) :
    scanTokens ls = (ls.map (fun l => String.mk (dropCR l)), none) := by
  induction ls with
  | nil => rfl
  | cons l ls ih =>
    have h1 : ¬ MaxScanTokenSize ≤ byteLen l := Nat.not_le.2 (h l (by simp))
    have h2 := ih (fun x hx => h x (by simp [hx]))
    simp [scanTokens, h1, h2]

theorem readLine_nil (c : JSONCodec) : readLine c (String.mk []) = none := by
  simp [readLine, TrimSpace, trimSpaceChars]

theorem rawLines_joined (first cur : List Char) (rest : List (List Char))
    (h1 : '\n' ∉ first) (h2 : ∀ l ∈ rest, '\n' ∉ l) :
    (∀ l ∈ rawLines cur (first ++ rest.flatMap (fun a => '\n' :: a)), l ∈ (cur ++ first) :: rest) ∧
    ∀ c : JSONCodec,
      ((rawLines cur (first ++ rest.flatMap (fun a => '\n' :: a))).map
        (fun l => String.mk (dropCR l))).filterMap (readLine c) =
      ((cur ++ first) :: rest).filterMap (fun l => readLine c (String.mk l)) := by
  induction rest generalizing first cur with
  | nil =>
    simp only [List.flatMap_nil, List.append_nil]
    rw [rawLines_no_newline _ _ h1]
    by_cases he : cur ++ first = []
    · simp only [he, if_true, List.not_mem_nil, false_implies, implies_true, true_and,
        List.map_nil, List.filterMap_nil, List.filterMap_cons, readLine_nil]
    · simp only [he, if_false, List.mem_singleton, List.mem_cons, List.not_mem_nil, or_false,
        imp_self, implies_true, true_and, List.map_cons, List.map_nil, List.filterMap_cons,
        readLine_dropCR]
      intro c; trivial
  | cons a rest ih =>
    have ha : '\n' ∉ a := h2 a (by simp)
    have hr : ∀ l ∈ rest, '\n' ∉ l := fun l hl => h2 l (by simp [hl])
    obtain ⟨i1, i2⟩ := ih a [] ha hr
    simp only [List.flatMap_cons, List.cons_append]
    rw [rawLines_append_newline _ _ _ h1]
    constructor
    · intro l hl
      rcases List.mem_cons.1 hl with rfl | hl
      · simp
      · have := i1 l hl
        simp at this
        simp [this]
    · intro c
      have := i2 c
      simp only [List.nil_append] at this
      simp only [List.map_cons, List.filterMap_cons, readLine_dropCR, this]

theorem intercalate_go_data (acc s : String) (l : List String) :
    (String.intercalate.go acc s l).data = acc.data ++ l.flatMap (fun a => s.data ++ a.data) := by
  induction l generalizing acc with
  | nil => simp [String.intercalate.go]
  | cons a l ih => simp [String.intercalate.go, ih, String.data_append]

theorem splitNewlines_spec (data : List Char) :
    ∃ first rest, splitNewlines data = first :: rest ∧
      data = first ++ rest.flatMap (fun l => '\n' :: l) ∧
      ∀ l ∈ first :: rest, '\n' ∉ l := by
  induction data with
  | nil => exact ⟨[], [], rfl, rfl, by simp⟩
  | cons ch data ih =>
    obtain ⟨first, rest, h1, h2, h3⟩ := ih
    by_cases hc : ch = '\n'
    · refine ⟨[], first :: rest, by simp [splitNewlines, hc, h1], ?_, ?_⟩
      · rw [hc, List.flatMap_cons, List.nil_append, List.cons_append, ← h2]
      · intro l hl
        rcases List.mem_cons.1 hl with rfl | hl
        · simp
        · exact h3 l hl
    · refine ⟨ch :: first, rest, by simp [splitNewlines, hc, h1], ?_, ?_⟩
      · rw [List.cons_append, ← h2]
      · intro l hl
        rcases List.mem_cons.1 hl with rfl | hl
        · intro hm
          rcases List.mem_cons.1 hm with e | hm
          · exact hc e.symm
          · exact h3 first (by simp) hm
        · exact h3 l (by simp [hl])

/-- Every text is its lines joined by newlines, and no line holds a newline. -/
theorem fileLines_spec (content : String) :
    content = String.intercalate "\n" (fileLines content) ∧
      ∀ l ∈ fileLines content, '\n' ∉ l.data := by
  obtain ⟨first, rest, h1, h2, h3⟩ := splitNewlines_spec content.data
  constructor
  · apply String.ext
    simp only [fileLines, h1, List.map_cons, String.intercalate, intercalate_go_data,
      List.flatMap_map]
    exact h2
  · intro l hl
    simp only [fileLines, List.mem_map] at hl
    obtain ⟨x, hx, rfl⟩ := hl
    rw [h1] at hx
    exact h3 x hx

/-- The entries of a file are what the scanning loop of `readAll` collects from it. -/
theorem entries_eq_scanned (c : JSONCodec) (content : String) :
    entries c content =
      ((rawLines [] content.data).map (fun l => String.mk (dropCR l))).filterMap
        (readLine c) := by
  obtain ⟨first, rest, h1, h2, h3⟩ := splitNewlines_spec content.data
  have hj := (rawLines_joined first [] rest (h3 first (by simp))
    (fun l hl => h3 l (by simp [hl]))).2 c
  rw [← h2] at hj
  rw [hj]
  simp only [entries, fileLines, h1, List.nil_append, List.filterMap_map]
  rfl

theorem readAll_eq_entries (c : JSONCodec) (content : String)
    (h : ∀ l ∈ rawLines [] content.data, byteLen l < MaxScanTokenSize) :
    readAll c { content := content, readErr := none } = Except.ok (entries c content) := by
  simp [readAll, scanReader, scan, scanTokens_short _ h, entries_eq_scanned]

theorem readAll_lines (c : JSONCodec) (lines : List String)
    (hnl : ∀ l ∈ lines, '\n' ∉ l.data)
    (hshort : ∀ l ∈ lines, l.utf8ByteSize < MaxScanTokenSize) :
    readAll c { content := String.intercalate "\n" lines, readErr := none } =
      Except.ok (lines.filterMap (readLine c)) := by
  cases lines with
  | nil => rfl
  | cons a rest =>
    have hd : (String.intercalate "\n" (a :: rest)).data =
        a.data ++ (rest.map String.data).flatMap (fun x => '\n' :: x) := by
      simp [String.intercalate, intercalate_go_data, List.flatMap_map]
    obtain ⟨j1, j2⟩ := rawLines_joined a.data [] (rest.map String.data)
      (hnl a (by simp)) (by
        intro l hl
        obtain ⟨x, hx, rfl⟩ := List.mem_map.1 hl
        exact hnl x (by simp [hx]))
    rw [readAll_eq_entries]
    · simp only [entries_eq_scanned, hd, j2 c, List.nil_append, List.filterMap_cons,
        List.filterMap_map]
      rfl
    · intro l hl
      rw [hd] at hl
      have := j1 l hl
      simp at this
      rcases this with rfl | ⟨x, hx, rfl⟩
      · exact hshort a (by simp)
      · exact hshort x (by simp [hx])

/-! ## Writing and reading back -/

theorem trimSpaceChars_braces (l : List Char) (h1 : l.head? = some '\x7b')
    (h2 : l.getLast? = some '\x7d') : trimSpaceChars l = l := by
  have e1 : l.dropWhile isSpace = l := by
    cases l with
    | nil => rfl
    | cons a t =>
      simp at h1
      subst h1
      have hb : isSpace '\x7b' = false := by decide
      simp [List.dropWhile_cons, hb]
  have e2 : l.reverse.dropWhile isSpace = l.reverse := by
    rcases List.eq_nil_or_concat l with rfl | ⟨m, a, rfl⟩
    · rfl
    · simp at h2
      subst h2
      have hb : isSpace '\x7d' = false := by decide
      simp [List.dropWhile_cons, hb]
  simp [trimSpaceChars, e1, e2]

theorem roundTrips_spec (c : JSONCodec) (p : Payload) (h : c.roundTrips p = true) :
    c.marshal p = Except.ok (c.lineOf p) ∧ '\n' ∉ (c.lineOf p).data ∧
      byteLen (c.lineOf p).data < MaxScanTokenSize ∧ readLine c (c.lineOf p) = some p := by
  unfold JSONCodec.roundTrips at h
  unfold JSONCodec.lineOf
  cases hm : c.marshal p with
  | error e => simp [hm] at h
  | ok line =>
    simp only [hm, Bool.and_eq_true, beq_iff_eq, Bool.not_eq_true', decide_eq_true_eq] at h
    obtain ⟨⟨⟨⟨h1, h2⟩, h3⟩, h4⟩, h5⟩ := h
    refine ⟨rfl, ?_, ?_, ?_⟩
    · intro hc
      have h3' : '\n' ∉ line.data := by simpa using h3
      exact h3' hc
    · exact h4
    · have ht : TrimSpace line = line := by
        simp [TrimSpace, trimSpaceChars_braces _ h1 h2]
      have hne : line ≠ "" := by
        intro e
        subst e
        simp at h1
      simp [readLine, ht, hne, h5]

theorem filterMap_map_eq_self {α β : Type} (f : α → β) (g : β → Option α) (l : List α)
    (h : ∀ p ∈ l, g (f p) = some p) : (l.map f).filterMap g = l := by
  induction l with
  | nil => rfl
  | cons a l ih =>
    simp [List.filterMap_cons, h a (by simp), ih (fun p hp => h p (by simp [hp]))]

theorem noWriteFaults_writeErr (i : Nat) : noWriteFaults.writeErr i = none := rfl

theorem Flush_intact (c : JSONCodec) (b : Buffer) (fs : FS) :
    b.Flush noReadFaults c fs =
      match fs b.path with
      | none => Except.ok []
      | some content => readAll c { content := content, readErr := none } := rfl

theorem writeAll_intact (c : JSONCodec) (b : Buffer) (fs : FS) (items : List Payload) :
    b.writeAll noWriteFaults c fs items =
      (fs.write b.path (encodeAll noWriteFaults c "" 0 items).1,
        (encodeAll noWriteFaults c "" 0 items).2) := by
  unfold Buffer.writeAll
  cases h : (encodeAll noWriteFaults c "" 0 items).2 <;> simp [noWriteFaults]

theorem encodeAll_roundTrips (c : JSONCodec) (items : List Payload) (content : String)
    (index : Nat) (h : ∀ p ∈ items, c.roundTrips p = true) :
    (encodeAll noWriteFaults c content index items).2 = none ∧
    (encodeAll noWriteFaults c content index items).1.data =
      content.data ++ items.flatMap (fun p => (c.lineOf p).data ++ ['\n']) := by
  induction items generalizing content index with
  | nil => simp [encodeAll]
  | cons a items ih =>
    obtain ⟨hm, -⟩ := roundTrips_spec c a (h a (by simp))
    have := ih (content ++ c.lineOf a ++ "\n") (index + 1) (fun p hp => h p (by simp [hp]))
    simp only [encodeAll, hm, noWriteFaults_writeErr, this, List.flatMap_cons,
      String.data_append, true_and]
    simp

theorem rawLines_encoded (c : JSONCodec) (items : List Payload)
    (h : ∀ p ∈ items, c.roundTrips p = true) :
    rawLines [] (items.flatMap (fun p => (c.lineOf p).data ++ ['\n'])) =
      items.map (fun p => (c.lineOf p).data) := by
  induction items with
  | nil => rfl
  | cons a items ih =>
    obtain ⟨-, hn, -⟩ := roundTrips_spec c a (h a (by simp))
    simp only [List.flatMap_cons, List.append_assoc, List.singleton_append, List.map_cons]
    rw [rawLines_append_newline _ _ _ hn, ih (fun p hp => h p (by simp [hp]))]
    simp

theorem readAll_encodeAll (c : JSONCodec) (items : List Payload)
    (h : ∀ p ∈ items, c.roundTrips p = true) :
    readAll c { content := (encodeAll noWriteFaults c "" 0 items).1, readErr := none } =
      Except.ok items := by
  have hd : (encodeAll noWriteFaults c "" 0 items).1.data =
      items.flatMap (fun p => (c.lineOf p).data ++ ['\n']) := by
    simpa using (encodeAll_roundTrips c items "" 0 h).2
  rw [readAll_eq_entries]
  · simp only [entries_eq_scanned, hd, rawLines_encoded c items h, List.map_map]
    congr 1
    apply filterMap_map_eq_self
    intro p hp
    simp only [Function.comp_apply, readLine_dropCR]
    exact (roundTrips_spec c p (h p hp)).2.2.2
  · intro l hl
    rw [hd, rawLines_encoded c items h] at hl
    obtain ⟨p, hp, rfl⟩ := List.mem_map.1 hl
    exact (roundTrips_spec c p (h p hp)).2.2.1

theorem write_same (fs : FS) (path content : String) :
    (fs.write path content) path = some content := by
  simp [FS.write]

theorem write_other (fs : FS) (path content q : String) (h : q ≠ path) :
    (fs.write path content) q = fs q := by
  simp [FS.write, h]

theorem Flush_writeAll (c : JSONCodec) (b : Buffer) (fs : FS) (items : List Payload)
    (h : ∀ p ∈ items, c.roundTrips p = true) :
    (b.writeAll noWriteFaults c fs items).2 = none ∧
      b.Flush noReadFaults c (b.writeAll noWriteFaults c fs items).1 = Except.ok items := by
  rw [writeAll_intact]
  refine ⟨(encodeAll_roundTrips c items "" 0 h).1, ?_⟩
  simp only [Flush_intact, write_same]
  exact readAll_encodeAll c items h

theorem Push_roundTrips (c : JSONCodec) (b : Buffer) (fs : FS) (p : Payload)
    (items : List Payload) (hf : b.Flush noReadFaults c fs = Except.ok items)
    (h : ∀ q ∈ items ++ [p], c.roundTrips q = true) (hmax : 0 < b.maxSize) :
    (b.Push noReadFaults noWriteFaults c fs (some p)).2 = none ∧
    b.Flush noReadFaults c (b.Push noReadFaults noWriteFaults c fs (some p)).1 =
      Except.ok (lastN b.maxSize.toNat (items ++ [p])) ∧
    ∀ q, q ≠ b.path → (b.Push noReadFaults noWriteFaults c fs (some p)).1 q = fs q := by
  have hk : (if ((items ++ [p]).length : Int) > b.maxSize then
        (items ++ [p]).drop (((items ++ [p]).length : Int) - b.maxSize).toNat
      else items ++ [p]) = lastN b.maxSize.toNat (items ++ [p]) := by
    unfold lastN
    split
    · congr 1; omega
    · rename_i hle
      have : (items ++ [p]).length - b.maxSize.toNat = 0 := by omega
      rw [this, List.drop_zero]
  have hmem : ∀ q ∈ lastN b.maxSize.toNat (items ++ [p]), c.roundTrips q = true :=
    fun q hq => h q (List.mem_of_mem_drop hq)
  simp only [Buffer.Push, hf, hk]
  obtain ⟨w1, w2⟩ := Flush_writeAll c b fs _ hmem
  refine ⟨w1, w2, ?_⟩
  intro q hq
  simp [writeAll_intact, write_other _ _ _ _ hq]

theorem lastN_append {α : Type} (n : Nat) (l r : List α) :
    lastN n (lastN n l ++ r) = lastN n (l ++ r) := by
  unfold lastN
  by_cases hl : l.length ≤ n
  · simp [Nat.sub_eq_zero_of_le hl]
  · push_neg at hl
    simp only [List.length_append, List.length_drop]
    rw [List.drop_append_eq_append_drop, List.drop_append_eq_append_drop, List.drop_drop,
      List.length_drop]
    congr 2 <;> omega

theorem NewBuffer_path (path : String) (maxSize : Int) :
    (NewBuffer path maxSize).path = path := rfl

theorem NewBuffer_maxSize (path : String) (maxSize : Int) (h : 0 < maxSize) :
    (NewBuffer path maxSize).maxSize = maxSize := by
  simp [NewBuffer, Int.not_le.2 h]

theorem pushAll_roundTrips (c : JSONCodec) (b : Buffer) (hmax : 0 < b.maxSize)
    (payloads : List Payload) (fs : FS) (items : List Payload)
    (hf : b.Flush noReadFaults c fs = Except.ok items) (hlen : items.length ≤ b.maxSize.toNat)
    (h : ∀ q ∈ items ++ payloads, c.roundTrips q = true) :
    b.Flush noReadFaults c (pushAll c b fs payloads) =
      Except.ok (lastN b.maxSize.toNat (items ++ payloads)) := by
  induction payloads generalizing fs items with
  | nil =>
    simp only [pushAll, List.foldl_nil, List.append_nil, lastN, Nat.sub_eq_zero_of_le hlen,
      List.drop_zero]
    exact hf
  | cons p rest ih =>
    obtain ⟨-, h2, -⟩ := Push_roundTrips c b fs p items hf
      (fun q hq => h q (by
        rcases List.mem_append.1 hq with hq | hq
        · simp [hq]
        · simp at hq; simp [hq])) hmax
    have := ih (b.Push noReadFaults noWriteFaults c fs (some p)).1 _ h2 (by
      simp only [lastN, List.length_drop, List.length_append, List.length_singleton]
      omega) (by
      intro q hq
      rcases List.mem_append.1 hq with hq | hq
      · have := List.mem_of_mem_drop hq
        apply h
        rcases List.mem_append.1 this with hq | hq
        · simp [hq]
        · simp at hq; simp [hq]
      · apply h; simp [hq])
    simp only [pushAll, List.foldl_cons] at this ⊢
    rw [this, lastN_append]
    simp

/-- C3, as the code has it. With a queue of capacity `maxSize > 0` on an absent or empty
file, after more than `maxSize` snapshots have been pushed one after another, no call of
the operating system failing, `Flush` returns exactly the last `maxSize` of them, as
pushed and in the order pushed, the most recent one last. The hypothesis on the codec is
the contract of `encoding/json` for the snapshots pushed: each marshals to a one-line
JSON object, shorter than a scanner token, that unmarshals to the same snapshot. -/
theorem push_retains_last_maxSize (c : JSONCodec) (path : String) (maxSize : Int) (fs : FS)
    (payloads : List Payload) (hmax : 0 < maxSize)
    (hfile : fs path = none ∨ fs path = some "")
    (hcodec : ∀ p ∈ payloads, c.roundTrips p = true)
    (hn : maxSize < payloads.length) :
    (NewBuffer path maxSize).Flush noReadFaults c
        (pushAll c (NewBuffer path maxSize) fs payloads) =
      Except.ok (payloads.drop (payloads.length - maxSize.toNat)) ∧
    (payloads.drop (payloads.length - maxSize.toNat)).length = maxSize.toNat ∧
    (payloads.drop (payloads.length - maxSize.toNat)).getLast? = payloads.getLast? := by
  have hb : 0 < (NewBuffer path maxSize).maxSize := by rw [NewBuffer_maxSize _ _ hmax]; exact hmax
  have h0 : (NewBuffer path maxSize).Flush noReadFaults c fs = Except.ok [] := by
    rcases hfile with h | h
    · simp [Flush_intact, NewBuffer_path, h]
    · simp only [Flush_intact, NewBuffer_path, h]
      rfl
  have := pushAll_roundTrips c _ hb payloads fs [] h0 (by simp) (by simpa using hcodec)
  rw [NewBuffer_maxSize _ _ hmax] at this
  refine ⟨by simpa [lastN] using this, by simp only [List.length_drop]; omega, ?_⟩
  have hlt : payloads.length - maxSize.toNat < payloads.length := by omega
  rw [List.getLast?_drop]
  simp [Nat.not_le.2 hlt]

theorem push_retains_last_maxSize_witness :
    (NewBuffer "q" 2).Flush noReadFaults sampleCodec
        (pushAll sampleCodec (NewBuffer "q" 2) (fun _ => none)
          [samplePayload 1, samplePayload 2, samplePayload 3]) =
      Except.ok [samplePayload 2, samplePayload 3] :=
  (push_retains_last_maxSize sampleCodec "q" 2 (fun _ => none)
    [samplePayload 1, samplePayload 2, samplePayload 3] (by decide) (Or.inl rfl) (by decide)
    (by decide)).1

/-! ## Calls of the queue that return no error -/

theorem scanReader_of_none (r : Reader) (h : (scanReader r).2 = none) : r.readErr = none := by
  unfold scanReader at h
  cases hr : r.readErr with
  | none => rfl
  | some ne =>
    obtain ⟨n, e⟩ := ne
    simp only [hr] at h
    split at h <;> simp at h

theorem readAll_of_ok (c : JSONCodec) (r : Reader) (items : List Payload)
    (h : readAll c r = Except.ok items) : r.readErr = none := by
  apply scanReader_of_none
  unfold readAll at h
  cases hs : (scanReader r).2 with
  | none => rfl
  | some e => simp [hs] at h

/-- A `Flush` that returns no error returns what it returns when nothing fails. -/
theorem Flush_of_ok (io : ReadFaults) (c : JSONCodec) (b : Buffer) (fs : FS)
    (items : List Payload) (h : b.Flush io c fs = Except.ok items) :
    b.Flush noReadFaults c fs = Except.ok items := by
  unfold Buffer.Flush at h
  rw [Flush_intact]
  cases ho : io.openErr with
  | some e => simp [ho] at h
  | none =>
    simp only [ho] at h
    cases hf : fs b.path with
    | none => simpa [hf] using h
    | some content =>
      simp only [hf] at h ⊢
      have hr : io.readErr = none := readAll_of_ok c _ _ h
      rw [hr] at h
      exact h

theorem encodeAll_of_ok (io : WriteFaults) (c : JSONCodec) (items : List Payload)
    (content : String) (index : Nat) (h : (encodeAll io c content index items).2 = none) :
    encodeAll io c content index items = encodeAll noWriteFaults c content index items := by
  induction items generalizing content index with
  | nil => rfl
  | cons a items ih =>
    unfold encodeAll at h ⊢
    cases hm : c.marshal a with
    | error e => simp [hm] at h
    | ok line =>
      simp only [hm] at h ⊢
      cases hw : io.writeErr index with
      | some ne => simp [hw] at h
      | none =>
        simp only [hw, noWriteFaults_writeErr] at h ⊢
        exact ih _ _ h

/-- A `writeAll` that returns no error does what it does when nothing fails. -/
theorem writeAll_of_ok (io : WriteFaults) (c : JSONCodec) (b : Buffer) (fs : FS)
    (items : List Payload) (h : (b.writeAll io c fs items).2 = none) :
    b.writeAll io c fs items = b.writeAll noWriteFaults c fs items := by
  rw [writeAll_intact]
  unfold Buffer.writeAll at h ⊢
  cases h1 : io.mkdirErr with
  | some e => simp [h1] at h
  | none =>
    cases h2 : io.openErr with
    | some e => simp [h1, h2] at h
    | none =>
      simp only [h1, h2] at h ⊢
      cases h3 : (encodeAll io c "" 0 items).2 with
      | some e => simp [h3] at h
      | none =>
        simp only [h3] at h
        have h4 := encodeAll_of_ok io c items "" 0 h3
        rw [h4] at h3
        rw [h4, h3, h]

/-- A `Push` that returns no error does what it does when nothing fails. -/
theorem Push_of_ok (rio : ReadFaults) (wio : WriteFaults) (c : JSONCodec) (b : Buffer) (fs : FS)
    (p : Payload) (h : (b.Push rio wio c fs (some p)).2 = none) :
    b.Push rio wio c fs (some p) = b.Push noReadFaults noWriteFaults c fs (some p) := by
  unfold Buffer.Push at h ⊢
  cases hf : b.Flush rio c fs with
  | error e => simp [hf] at h
  | ok items =>
    simp only [hf, Flush_of_ok rio c b fs items hf] at h ⊢
    exact writeAll_of_ok wio c b fs _ h

/-- A `Clear` that returns no error does what it does when nothing fails. -/
theorem Clear_of_ok (io : WriteFaults) (c : JSONCodec) (b : Buffer) (fs : FS)
    (h : (b.Clear io c fs).2 = none) : b.Clear io c fs = b.Clear noWriteFaults c fs :=
  writeAll_of_ok io c b fs [] h

theorem Push_intact (c : JSONCodec) (b : Buffer) (fs : FS) (p : Payload) (items : List Payload)
    (hf : b.Flush noReadFaults c fs = Except.ok items) (hmax : 0 < b.maxSize) :
    b.Push noReadFaults noWriteFaults c fs (some p) =
      b.writeAll noWriteFaults c fs (lastN b.maxSize.toNat (items ++ [p])) := by
  have hk : (if ((items ++ [p]).length : Int) > b.maxSize then
        (items ++ [p]).drop (((items ++ [p]).length : Int) - b.maxSize).toNat
      else items ++ [p]) = lastN b.maxSize.toNat (items ++ [p]) := by
    unfold lastN
    split
    · congr 1; omega
    · rename_i hle
      have : (items ++ [p]).length - b.maxSize.toNat = 0 := by omega
      rw [this, List.drop_zero]
  simp only [Buffer.Push, hf, hk]

/-! ## The text of the queue file -/

theorem join_go_append (acc : String) (l : List String) :
    List.foldl (fun r s => r ++ s) acc l = acc ++ String.join l := by
  induction l generalizing acc with
  | nil => simp [String.join]
  | cons a l ih =>
    simp only [List.foldl_cons, String.join]
    rw [ih, ih ("" ++ a)]
    simp [String.append_assoc]

theorem encodedText_nil (c : JSONCodec) : encodedText c [] = "" := rfl

theorem encodedText_cons (c : JSONCodec) (p : Payload) (items : List Payload) :
    encodedText c (p :: items) = c.lineOf p ++ "\n" ++ encodedText c items := by
  simp only [encodedText, List.map_cons, String.join, List.foldl_cons]
  rw [join_go_append, join_go_append ""]
  simp

theorem encodedText_singleton (c : JSONCodec) (p : Payload) :
    encodedText c [p] = c.lineOf p ++ "\n" := by
  rw [encodedText_cons, encodedText_nil]
  simp

theorem encodeAll_complete (io : WriteFaults) (c : JSONCodec) (items : List Payload)
    (content : String) (index : Nat) (h : (encodeAll io c content index items).2 = none) :
    (encodeAll io c content index items).1 = content ++ encodedText c items := by
  induction items generalizing content index with
  | nil => simp [encodeAll, encodedText, String.join]
  | cons p items ih =>
    unfold encodeAll at h ⊢
    cases hm : c.marshal p with
    | error e => simp [hm] at h
    | ok line =>
      simp only [hm] at h ⊢
      cases hw : io.writeErr index with
      | some ne => simp [hw] at h
      | none =>
        simp only [hw] at h ⊢
        have hl : c.lineOf p = line := by simp [JSONCodec.lineOf, hm]
        rw [ih _ _ h, encodedText_cons, hl]
        simp [String.append_assoc]

theorem writeAll_complete (io : WriteFaults) (c : JSONCodec) (b : Buffer) (fs : FS)
    (items : List Payload) (h : (b.writeAll io c fs items).2 = none) :
    (b.writeAll io c fs items).1 = fs.write b.path (encodedText c items) := by
  have h2 := writeAll_of_ok io c b fs items h
  rw [h2] at h ⊢
  rw [writeAll_intact] at h ⊢
  simp only at h ⊢
  rw [encodeAll_complete noWriteFaults c items "" 0 h]
  simp

/-! ## The send cycle -/

theorem payloadBuffer_maxSize : payloadBuffer.maxSize = 10 := by decide

theorem payloadBuffer_path : payloadBuffer.path = defaultBufferPath := rfl

theorem runSend_eq (io : StorageFaults) (c : JSONCodec) (env : CycleEnv) (fs : FS)
    (cfg : Config) (payload : Payload)
    (hcfg : env.loadConfig = Except.ok cfg)
    (hp : buildPayload env cfg.HostID = Except.ok payload) :
    runSend io c env fs =
      sendCycle io c (env.newClient cfg cfg.AllowInsecureLocalhost) payloadBuffer payload
        (migrateLegacyBufferFile fs defaultBufferPath legacyBufferPath) := by
  simp [runSend, hcfg, hp, payloadBuffer]

theorem sendCycle_backlog (io : StorageFaults) (c : JSONCodec) (cli : SendClient) (b : Buffer)
    (payload : Payload) (fs : FS) (n : Int) (items : List Payload)
    (hc : b.Count io.count c fs = Except.ok n) (hn : 0 < n)
    (hf : b.Flush io.flush c fs = Except.ok items) (hne : items ≠ []) :
    sendCycle io c cli b payload fs =
      match cli.SendBatch items with
      | Except.error _ =>
        ((b.Push io.pushRead io.pushWrite c fs (some payload)).1,
          [Event.sentBatch items, Event.logged
            (if (b.Push io.pushRead io.pushWrite c fs (some payload)).2.isSome then
              Warning.batchFailedBufferingFailed
             else Warning.batchFailedBuffered)])
      | Except.ok batchResp =>
        if batchResp.Rejected > 0 then
          ((b.Push io.pushRead io.pushWrite c fs (some payload)).1,
            [Event.sentBatch items, Event.logged
              (if (b.Push io.pushRead io.pushWrite c fs (some payload)).2.isSome then
                Warning.batchRejectedBufferingFailed
               else Warning.batchRejectedBuffered)])
        else
          sendCurrent io c cli b payload (b.Clear io.clear c fs).1
            (if (b.Clear io.clear c fs).2.isSome then
              [Event.sentBatch items, Event.logged Warning.clearBufferFailed]
             else [Event.sentBatch items]) := by
  have hlen : 0 < items.length := List.length_pos.2 hne
  simp only [sendCycle, hc, hf, gt_iff_lt, hn, hlen, if_true, List.nil_append]
  cases hb : cli.SendBatch items with
  | error e =>
    simp only
    rcases hpush : b.Push io.pushRead io.pushWrite c fs (some payload) with ⟨fs1, _ | e1⟩ <;> simp
  | ok resp =>
    simp only
    split
    · rcases hpush : b.Push io.pushRead io.pushWrite c fs (some payload) with ⟨fs1, _ | e1⟩ <;>
        simp
    · rcases hclear : b.Clear io.clear c fs with ⟨fs1, _ | e1⟩ <;> simp

/-- A cycle that finds no backlog to send goes on to send the current snapshot, with the
queue file as it was. -/
theorem sendCycle_no_backlog (io : StorageFaults) (c : JSONCodec) (cli : SendClient)
    (b : Buffer) (payload : Payload) (fs : FS)
    (h : ¬ ∃ n items, b.Count io.count c fs = Except.ok n ∧ 0 < n ∧
      b.Flush io.flush c fs = Except.ok items ∧ items ≠ []) :
    ∃ ev, sendCycle io c cli b payload fs = sendCurrent io c cli b payload fs ev := by
  unfold sendCycle
  cases hc : b.Count io.count c fs with
  | error e => exact ⟨[Event.logged Warning.inspectBufferFailed], by simp⟩
  | ok n =>
    by_cases hn : n > 0
    · cases hf : b.Flush io.flush c fs with
      | error e => exact ⟨[Event.logged Warning.readBufferFailed], by simp [hn]⟩
      | ok items =>
        have hnil : items = [] := by
          by_contra hne
          exact h ⟨n, items, hc, hn, hf, hne⟩
        subst hnil
        exact ⟨[], by simp [hn]⟩
    · exact ⟨[], by simp [hn]⟩

theorem sendCurrent_fst (io : StorageFaults) (c : JSONCodec) (cli : SendClient) (b : Buffer)
    (payload : Payload) (fs : FS) (ev : List Event) :
    (sendCurrent io c cli b payload fs ev).1 =
      match cli.SendPayload payload with
      | Except.error _ => (b.Push io.pushRead io.pushWrite c fs (some payload)).1
      | Except.ok _ => fs := by
  unfold sendCurrent
  cases cli.SendPayload payload with
  | error e =>
    rcases hpush : b.Push io.pushRead io.pushWrite c fs (some payload) with ⟨fs1, _ | e1⟩ <;> simp
  | ok r => simp only; split <;> rfl

theorem sendCurrent_failed (io : StorageFaults) (c : JSONCodec) (cli : SendClient) (b : Buffer)
    (payload : Payload) (fs : FS) (ev : List Event) (err : GoError)
    (hs : cli.SendPayload payload = Except.error err) :
    sendCurrent io c cli b payload fs ev =
      ((b.Push io.pushRead io.pushWrite c fs (some payload)).1,
        ev ++ [Event.sentPayload payload, Event.logged
          (if (b.Push io.pushRead io.pushWrite c fs (some payload)).2.isSome then
            Warning.sendFailedBufferingFailed
           else Warning.sendFailedBuffered)]) := by
  unfold sendCurrent
  simp only [hs]
  rcases hpush : b.Push io.pushRead io.pushWrite c fs (some payload) with ⟨fs1, _ | e1⟩ <;> simp

theorem Clear_spec (c : JSONCodec) (b : Buffer) (fs : FS) :
    (b.Clear noWriteFaults c fs).2 = none ∧
      b.Flush noReadFaults c (b.Clear noWriteFaults c fs).1 = Except.ok [] ∧
      ∀ q, q ≠ b.path → (b.Clear noWriteFaults c fs).1 q = fs q := by
  refine ⟨rfl, ?_, ?_⟩
  · simp only [Buffer.Clear, writeAll_intact, Flush_intact, write_same]
    rfl
  · intro q hq
    simp [Buffer.Clear, writeAll_intact, write_other _ _ _ _ hq]

/-- A cycle with an accepted batch and a failed single send, in which `Clear` and `Push`
return no error: the queue file holds the line of the current snapshot. -/
theorem runSend_accepted_then_failed (io : StorageFaults) (c : JSONCodec)
    (env : CycleEnv) (fs : FS) (cfg : Config) (payload : Payload) (items : List Payload)
    (resp : BatchResponse) (err : GoError)
    (hcfg : env.loadConfig = Except.ok cfg)
    (hp : buildPayload env cfg.HostID = Except.ok payload)
    (hcount : payloadBuffer.Count io.count c
      (migrateLegacyBufferFile fs defaultBufferPath legacyBufferPath) =
        Except.ok (items.length : Int))
    (hq : payloadBuffer.Flush io.flush c
      (migrateLegacyBufferFile fs defaultBufferPath legacyBufferPath) = Except.ok items)
    (hne : items ≠ [])
    (hbatch : (env.newClient cfg cfg.AllowInsecureLocalhost).SendBatch items = Except.ok resp)
    (hrej : resp.Rejected = 0)
    (hsingle : (env.newClient cfg cfg.AllowInsecureLocalhost).SendPayload payload =
      Except.error err)
    (hclear : (payloadBuffer.Clear io.clear c
      (migrateLegacyBufferFile fs defaultBufferPath legacyBufferPath)).2 = none)
    (hpush : (payloadBuffer.Push io.pushRead io.pushWrite c
      (payloadBuffer.Clear io.clear c
        (migrateLegacyBufferFile fs defaultBufferPath legacyBufferPath)).1
      (some payload)).2 = none) :
    (runSend io c env fs).1 defaultBufferPath = some (c.lineOf payload ++ "\n") ∧
    (runSend io c env fs).2 =
      [Event.sentBatch items, Event.sentPayload payload,
        Event.logged Warning.sendFailedBuffered] ∧
    (runSend io c env fs).1 =
      (payloadBuffer.Push noReadFaults noWriteFaults c
        (payloadBuffer.Clear noWriteFaults c
          (migrateLegacyBufferFile fs defaultBufferPath legacyBufferPath)).1
        (some payload)).1 := by
  have hn : (0 : Int) < (items.length : Int) := by
    exact_mod_cast List.length_pos.2 hne
  rw [runSend_eq io c env fs cfg payload hcfg hp,
    sendCycle_backlog io c _ _ _ _ _ items hcount hn hq hne, hbatch]
  simp only [hrej, gt_iff_lt, lt_self_iff_false, if_false, hclear, Option.isSome_none,
    Bool.false_eq_true, sendCurrent_failed io c _ _ _ _ _ err hsingle, hpush,
    List.singleton_append, true_and]
  rw [Push_of_ok _ _ c payloadBuffer _ payload hpush, Clear_of_ok _ c payloadBuffer _ hclear]
  obtain ⟨-, c2, -⟩ := Clear_spec c payloadBuffer
    (migrateLegacyBufferFile fs defaultBufferPath legacyBufferPath)
  have hpush2 : (payloadBuffer.Push noReadFaults noWriteFaults c
      (payloadBuffer.Clear noWriteFaults c
        (migrateLegacyBufferFile fs defaultBufferPath legacyBufferPath)).1
      (some payload)).2 = none := by
    rw [← Clear_of_ok _ c payloadBuffer _ hclear, ← Push_of_ok _ _ c payloadBuffer _ payload hpush]
    exact hpush
  refine ⟨?_, rfl⟩
  have hl : lastN payloadBuffer.maxSize.toNat ([] ++ [payload]) = [payload] := rfl
  rw [Push_intact c payloadBuffer _ payload [] c2 (by decide), hl] at hpush2 ⊢
  rw [writeAll_complete _ c payloadBuffer _ _ hpush2, encodedText_singleton,
    payloadBuffer_path, write_same]

/-- C1, as the code has it. A send cycle that finds buffered snapshots, gets a batch
response with `rejected = 0` and then fails to send the current snapshot, and in which
`Clear` and `Push` return no error, leaves in the queue file exactly one line, the one
written for the current snapshot; so the queue holds exactly one entry, the current
snapshot, when that line reads back. The hypothesis on the codec is the contract of
`encoding/json` for the current snapshot. -/
theorem runSend_batch_accepted_send_failed (io : StorageFaults) (c : JSONCodec)
    (env : CycleEnv) (fs : FS) (cfg : Config) (payload : Payload) (items : List Payload)
    (resp : BatchResponse) (err : GoError)
    (hcfg : env.loadConfig = Except.ok cfg)
    (hp : buildPayload env cfg.HostID = Except.ok payload)
    (hcount : payloadBuffer.Count io.count c
      (migrateLegacyBufferFile fs defaultBufferPath legacyBufferPath) =
        Except.ok (items.length : Int))
    (hq : payloadBuffer.Flush io.flush c
      (migrateLegacyBufferFile fs defaultBufferPath legacyBufferPath) = Except.ok items)
    (hne : items ≠ [])
    (hbatch : (env.newClient cfg cfg.AllowInsecureLocalhost).SendBatch items = Except.ok resp)
    (hrej : resp.Rejected = 0)
    (hsingle : (env.newClient cfg cfg.AllowInsecureLocalhost).SendPayload payload =
      Except.error err)
    (hclear : (payloadBuffer.Clear io.clear c
      (migrateLegacyBufferFile fs defaultBufferPath legacyBufferPath)).2 = none)
    (hpush : (payloadBuffer.Push io.pushRead io.pushWrite c
      (payloadBuffer.Clear io.clear c
        (migrateLegacyBufferFile fs defaultBufferPath legacyBufferPath)).1
      (some payload)).2 = none) :
    (runSend io c env fs).1 defaultBufferPath = some (c.lineOf payload ++ "\n") ∧
    (runSend io c env fs).2 =
      [Event.sentBatch items, Event.sentPayload payload,
        Event.logged Warning.sendFailedBuffered] ∧
    (c.roundTrips payload = true →
      payloadBuffer.Flush noReadFaults c (runSend io c env fs).1 = Except.ok [payload]) := by
  obtain ⟨h1, h2, h3⟩ := runSend_accepted_then_failed io c env fs cfg payload items resp err
    hcfg hp hcount hq hne hbatch hrej hsingle hclear hpush
  refine ⟨h1, h2, ?_⟩
  intro hcodec
  obtain ⟨-, c2, -⟩ := Clear_spec c payloadBuffer
    (migrateLegacyBufferFile fs defaultBufferPath legacyBufferPath)
  obtain ⟨-, p2, -⟩ := Push_roundTrips c payloadBuffer _ payload [] c2
    (by simpa using hcodec) (by decide)
  rw [h3, p2, payloadBuffer_maxSize]
  rfl

theorem runSend_batch_accepted_send_failed_witness :
    payloadBuffer.Flush noReadFaults sampleCodec
        (runSend noFaults sampleCodec
          (sampleEnv 3 (Except.ok ⟨"ok", 2, 0, []⟩)
            (Except.error (GoError.transport (TransportError.netError "connection refused"))))
          (sampleQueue 2)).1 = Except.ok [samplePayload 3] :=
  (runSend_batch_accepted_send_failed noFaults sampleCodec
    (sampleEnv 3 (Except.ok ⟨"ok", 2, 0, []⟩)
      (Except.error (GoError.transport (TransportError.netError "connection refused"))))
    (sampleQueue 2) sampleConfig (samplePayload 3) (samplePayloads 2) ⟨"ok", 2, 0, []⟩
    (GoError.transport (TransportError.netError "connection refused"))
    rfl rfl (by decide) (by decide) (by decide) rfl rfl rfl (by decide) (by decide)).2.2
    (by decide)

/-- A send cycle whose batch send is answered with `rejected > 0` or fails pushes the
current snapshot onto the queue as it was: what `Push` leaves when it returns no error. -/
theorem Push_stored (rio : ReadFaults) (wio : WriteFaults) (c : JSONCodec) (b : Buffer)
    (fs : FS) (p : Payload) (items : List Payload)
    (hf : b.Flush noReadFaults c fs = Except.ok items) (hmax : 0 < b.maxSize)
    (hpush : (b.Push rio wio c fs (some p)).2 = none) :
    (b.Push rio wio c fs (some p)).1 b.path =
        some (encodedText c (lastN b.maxSize.toNat (items ++ [p]))) ∧
    ((∀ q ∈ items ++ [p], c.roundTrips q = true) →
      b.Flush noReadFaults c (b.Push rio wio c fs (some p)).1 =
        Except.ok (lastN b.maxSize.toNat (items ++ [p]))) := by
  have hpush2 : (b.Push noReadFaults noWriteFaults c fs (some p)).2 = none := by
    rw [← Push_of_ok rio wio c b fs p hpush]
    exact hpush
  rw [Push_of_ok rio wio c b fs p hpush]
  constructor
  · rw [Push_intact c b fs p items hf hmax] at hpush2 ⊢
    rw [writeAll_complete _ c b fs _ hpush2, write_same]
  · intro hcodec
    exact (Push_roundTrips c b fs p items hf hcodec hmax).2.1

/-- C2, as the code has it. A send cycle that finds buffered snapshots and gets a batch
response with `rejected > 0` does not clear the queue and attempts no single send: it
pushes the current snapshot onto the queue as it was, and ends. When that `Push` returns
no error, the queue file afterwards holds the lines of the last 10 of the buffered
snapshots followed by the current one, and, the lines reading back, the queue holds those
snapshots: all of the buffered ones and the current one when fewer than 10 were buffered.
The hypothesis on the codec is the contract of `encoding/json` for the snapshots
involved. -/
theorem runSend_batch_rejected (io : StorageFaults) (c : JSONCodec) (env : CycleEnv) (fs : FS)
    (cfg : Config) (payload : Payload) (items : List Payload) (resp : BatchResponse)
    (hcfg : env.loadConfig = Except.ok cfg)
    (hp : buildPayload env cfg.HostID = Except.ok payload)
    (hcount : payloadBuffer.Count io.count c
      (migrateLegacyBufferFile fs defaultBufferPath legacyBufferPath) =
        Except.ok (items.length : Int))
    (hq : payloadBuffer.Flush io.flush c
      (migrateLegacyBufferFile fs defaultBufferPath legacyBufferPath) = Except.ok items)
    (hne : items ≠ [])
    (hbatch : (env.newClient cfg cfg.AllowInsecureLocalhost).SendBatch items = Except.ok resp)
    (hrej : 0 < resp.Rejected) :
    (runSend io c env fs).1 =
      (payloadBuffer.Push io.pushRead io.pushWrite c
        (migrateLegacyBufferFile fs defaultBufferPath legacyBufferPath) (some payload)).1 ∧
    (∀ p, Event.sentPayload p ∉ (runSend io c env fs).2) ∧
    ((payloadBuffer.Push io.pushRead io.pushWrite c
        (migrateLegacyBufferFile fs defaultBufferPath legacyBufferPath) (some payload)).2 = none →
      (runSend io c env fs).2 =
        [Event.sentBatch items, Event.logged Warning.batchRejectedBuffered] ∧
      (runSend io c env fs).1 defaultBufferPath =
        some (encodedText c ((items ++ [payload]).drop (items.length + 1 - 10))) ∧
      ((∀ p ∈ items ++ [payload], c.roundTrips p = true) →
        payloadBuffer.Flush noReadFaults c (runSend io c env fs).1 =
          Except.ok ((items ++ [payload]).drop (items.length + 1 - 10)) ∧
        (items.length < 10 →
          payloadBuffer.Flush noReadFaults c (runSend io c env fs).1 =
            Except.ok (items ++ [payload])))) := by
  have hn : (0 : Int) < (items.length : Int) := by
    exact_mod_cast List.length_pos.2 hne
  rw [runSend_eq io c env fs cfg payload hcfg hp,
    sendCycle_backlog io c _ _ _ _ _ items hcount hn hq hne, hbatch]
  simp only [gt_iff_lt, hrej, if_true]
  refine ⟨trivial, ?_, ?_⟩
  · intro p hp
    simp only [List.mem_cons, List.mem_singleton, List.not_mem_nil, or_false] at hp
    rcases hp with hp | hp
    · cases hp
    · cases hp
  · intro hpush
    obtain ⟨s1, s2⟩ := Push_stored io.pushRead io.pushWrite c payloadBuffer _ payload items
      (Flush_of_ok _ c payloadBuffer _ items hq) (by decide) hpush
    have hl : lastN payloadBuffer.maxSize.toNat (items ++ [payload]) =
        (items ++ [payload]).drop (items.length + 1 - 10) := by
      rw [payloadBuffer_maxSize]
      simp [lastN]
    rw [hl] at s1 s2
    rw [payloadBuffer_path] at s1
    refine ⟨by simp [hpush], s1, ?_⟩
    intro hcodec
    refine ⟨s2 hcodec, ?_⟩
    intro hlt
    rw [s2 hcodec]
    have : items.length + 1 - 10 = 0 := by omega
    rw [this, List.drop_zero]

theorem runSend_batch_rejected_witness :
    payloadBuffer.Flush noReadFaults sampleCodec
        (runSend noFaults sampleCodec
          (sampleEnv 2 (Except.ok ⟨"ok", 0, 1, ["invalid"]⟩) (Except.ok ⟨"ok", false⟩))
          (sampleQueue 1)).1 = Except.ok [samplePayload 1, samplePayload 2] :=
  ((runSend_batch_rejected noFaults sampleCodec
    (sampleEnv 2 (Except.ok ⟨"ok", 0, 1, ["invalid"]⟩) (Except.ok ⟨"ok", false⟩))
    (sampleQueue 1) sampleConfig (samplePayload 2) (samplePayloads 1) ⟨"ok", 0, 1, ["invalid"]⟩
    rfl rfl (by decide) (by decide) (by decide) rfl (by decide)).2.2 (by decide)).2.2
    (by decide) |>.1

theorem scanTokens_none (ls : List (List Char)) (h : (scanTokens ls).2 = none) :
    (scanTokens ls).1 = ls.map (fun l => String.mk (dropCR l)) := by
  induction ls with
  | nil => rfl
  | cons l ls ih =>
    unfold scanTokens at h ⊢
    split
    · rename_i hlong
      simp [hlong] at h
    · rename_i hshort
      simp only [hshort, if_false] at h
      simp [ih h]

theorem entries_of_readAll (c : JSONCodec) (content : String) (items : List Payload)
    (h : readAll c { content := content, readErr := none } = Except.ok items) :
    entries c content = items := by
  unfold readAll at h
  simp only [scanReader] at h
  cases hs : (scan content).2 with
  | some e => simp [hs] at h
  | none =>
    simp only [hs] at h
    injection h with h
    rw [← h, entries_eq_scanned]
    unfold scan at hs ⊢
    rw [scanTokens_none _ hs]

theorem queueEntries_of_Flush (c : JSONCodec) (b : Buffer) (fs : FS) (items : List Payload)
    (h : b.Flush noReadFaults c fs = Except.ok items) : queueEntries c fs b.path = items := by
  rw [Flush_intact] at h
  unfold queueEntries
  cases hf : fs b.path with
  | none =>
    simp only [hf] at h
    injection h with h
  | some content =>
    simp only [hf] at h
    exact entries_of_readAll c content items h

theorem sendCurrent_events (io : StorageFaults) (c : JSONCodec) (cli : SendClient) (b : Buffer)
    (payload : Payload) (fs : FS) (ev : List Event) (e : Event) (he : e ∈ ev) :
    e ∈ (sendCurrent io c cli b payload fs ev).2 := by
  unfold sendCurrent
  cases cli.SendPayload payload with
  | error err =>
    rcases hpush : b.Push io.pushRead io.pushWrite c fs (some payload) with ⟨fs1, _ | e1⟩ <;>
      simp [he]
  | ok r =>
    simp only
    split <;> simp [he]

theorem migrate_of_present (fs : FS) (content : String)
    (h : fs defaultBufferPath = some content) :
    migrateLegacyBufferFile fs defaultBufferPath legacyBufferPath = fs := by
  have hne : defaultBufferPath ≠ legacyBufferPath := by decide
  simp [migrateLegacyBufferFile, hne, h]

/-- The queue after a `Push` that returns no error is no shorter than before, when the
queue held at most `maxSize` entries. -/
theorem Push_length (rio : ReadFaults) (wio : WriteFaults) (c : JSONCodec) (b : Buffer)
    (fs : FS) (p : Payload)
    (hcodec : ∀ q ∈ queueEntries c fs b.path, c.roundTrips q = true)
    (hp : c.roundTrips p = true) (hmax : 0 < b.maxSize)
    (hlen : (queueEntries c fs b.path).length ≤ b.maxSize.toNat)
    (hpush : (b.Push rio wio c fs (some p)).2 = none) :
    (queueEntries c fs b.path).length ≤
      (queueEntries c (b.Push rio wio c fs (some p)).1 b.path).length := by
  have hpush2 : (b.Push noReadFaults noWriteFaults c fs (some p)).2 = none := by
    rw [← Push_of_ok rio wio c b fs p hpush]
    exact hpush
  rw [Push_of_ok rio wio c b fs p hpush]
  cases hf : b.Flush noReadFaults c fs with
  | error e => simp [Buffer.Push, hf] at hpush2
  | ok items =>
    have hqe := queueEntries_of_Flush c b fs items hf
    rw [hqe] at hcodec hlen ⊢
    have hall : ∀ q ∈ items ++ [p], c.roundTrips q = true := by
      intro q hq
      rcases List.mem_append.1 hq with hq | hq
      · exact hcodec q hq
      · simp at hq; rw [hq]; exact hp
    obtain ⟨-, p2, -⟩ := Push_roundTrips c b fs p items hf hall hmax
    rw [queueEntries_of_Flush c b _ _ p2]
    simp only [lastN, List.length_drop, List.length_append, List.length_singleton]
    omega

/-- C4, as the code has it. When the queue file holds at most 10 entries, a send cycle
leaves fewer entries in it than it had only if a batch send returned without error and
without reporting a rejection (`rejected ≤ 0`), or `Push` returned an error, which the
cycle logs. The hypotheses on the codec are the contract of `encoding/json` for the
entries of the file and for the current snapshot. -/
theorem runSend_shrinks_only_after_accepted_batch (io : StorageFaults) (c : JSONCodec)
    (env : CycleEnv) (fs : FS)
    (hcap : (queueEntries c fs defaultBufferPath).length ≤ 10)
    (hcodec : ∀ p ∈ queueEntries c fs defaultBufferPath, c.roundTrips p = true)
    (hcur : ∀ cfg payload, env.loadConfig = Except.ok cfg →
      buildPayload env cfg.HostID = Except.ok payload → c.roundTrips payload = true)
    (hlt : (queueEntries c (runSend io c env fs).1 defaultBufferPath).length <
      (queueEntries c fs defaultBufferPath).length) :
    (∃ cfg pending resp, env.loadConfig = Except.ok cfg ∧
      Event.sentBatch pending ∈ (runSend io c env fs).2 ∧
      (env.newClient cfg cfg.AllowInsecureLocalhost).SendBatch pending = Except.ok resp ∧
      resp.Rejected ≤ 0) ∨
    ∃ w, bufferingFailed w = true ∧ Event.logged w ∈ (runSend io c env fs).2 := by
  cases hcfg : env.loadConfig with
  | error e =>
    simp [runSend, hcfg] at hlt
  | ok cfg =>
    cases hp : buildPayload env cfg.HostID with
    | error e => simp [runSend, hcfg, hp] at hlt
    | ok payload =>
      have hrt := hcur cfg payload hcfg hp
      rw [runSend_eq io c env fs cfg payload hcfg hp] at hlt ⊢
      cases hfile : fs defaultBufferPath with
      | none => simp [queueEntries, hfile] at hlt
      | some content =>
        rw [migrate_of_present fs content hfile] at hlt ⊢
        have hpush := Push_length io.pushRead io.pushWrite c payloadBuffer fs payload hcodec hrt
          (by decide) (by rw [payloadBuffer_maxSize]; exact hcap)
        rw [payloadBuffer_path] at hpush
        by_cases hback : ∃ n items, payloadBuffer.Count io.count c fs = Except.ok n ∧ 0 < n ∧
            payloadBuffer.Flush io.flush c fs = Except.ok items ∧ items ≠ []
        · obtain ⟨n, items, hc, hn, hf, hne⟩ := hback
          rw [sendCycle_backlog io c _ _ _ _ n items hc hn hf hne] at hlt ⊢
          cases hb : (env.newClient cfg cfg.AllowInsecureLocalhost).SendBatch items with
          | error e =>
            simp only [hb] at hlt ⊢
            cases hpr : (payloadBuffer.Push io.pushRead io.pushWrite c fs (some payload)).2 with
            | none =>
              have := hpush hpr
              omega
            | some e1 =>
              right
              exact ⟨Warning.batchFailedBufferingFailed, by decide, by simp⟩
          | ok resp =>
            simp only [hb] at hlt ⊢
            by_cases hrej : resp.Rejected > 0
            · simp only [hrej, if_true] at hlt ⊢
              cases hpr : (payloadBuffer.Push io.pushRead io.pushWrite c fs (some payload)).2 with
              | none =>
                have := hpush hpr
                omega
              | some e1 =>
                right
                exact ⟨Warning.batchRejectedBufferingFailed, by decide, by simp⟩
            · simp only [hrej, if_false]
              left
              refine ⟨cfg, items, resp, rfl, ?_, hb, by omega⟩
              apply sendCurrent_events
              split <;> simp
        · obtain ⟨ev, hev⟩ := sendCycle_no_backlog io c
            (env.newClient cfg cfg.AllowInsecureLocalhost) payloadBuffer payload fs hback
          rw [hev] at hlt ⊢
          cases hs : (env.newClient cfg cfg.AllowInsecureLocalhost).SendPayload payload with
          | ok r =>
            rw [sendCurrent_fst] at hlt
            simp only [hs] at hlt
            exact absurd hlt (lt_irrefl _)
          | error e2 =>
            rw [sendCurrent_failed io c _ _ _ _ _ e2 hs] at hlt ⊢
            cases hpr : (payloadBuffer.Push io.pushRead io.pushWrite c fs (some payload)).2 with
            | none =>
              have := hpush hpr
              simp only at hlt
              omega
            | some e1 =>
              right
              exact ⟨Warning.sendFailedBufferingFailed, by decide, by simp⟩

theorem runSend_shrinks_only_after_accepted_batch_witness :
    (∃ cfg pending resp,
      (sampleEnv 3 (Except.ok ⟨"ok", 2, 0, []⟩) (Except.ok ⟨"ok", false⟩)).loadConfig =
        Except.ok cfg ∧
      Event.sentBatch pending ∈ (runSend noFaults sampleCodec
        (sampleEnv 3 (Except.ok ⟨"ok", 2, 0, []⟩) (Except.ok ⟨"ok", false⟩)) (sampleQueue 2)).2 ∧
      ((sampleEnv 3 (Except.ok ⟨"ok", 2, 0, []⟩) (Except.ok ⟨"ok", false⟩)).newClient cfg
        cfg.AllowInsecureLocalhost).SendBatch pending = Except.ok resp ∧
      resp.Rejected ≤ 0) ∨
    ∃ w, bufferingFailed w = true ∧ Event.logged w ∈ (runSend noFaults sampleCodec
      (sampleEnv 3 (Except.ok ⟨"ok", 2, 0, []⟩) (Except.ok ⟨"ok", false⟩)) (sampleQueue 2)).2 :=
  runSend_shrinks_only_after_accepted_batch noFaults sampleCodec
    (sampleEnv 3 (Except.ok ⟨"ok", 2, 0, []⟩) (Except.ok ⟨"ok", false⟩)) (sampleQueue 2)
    (by decide) (by decide)
    (by
      intro cfg payload h1 h2
      injection h1 with h1
      subst h1
      injection h2 with h2
      subst h2
      decide)
    (by decide)

/-- C4 as stated fails in three ways. A queue file with 11 entries loses one in a cycle
whose batch send fails, because pushing the current snapshot keeps the last 10 entries
only. A batch response with a negative `rejected` makes the cycle clear the queue, though
it does not report `rejected = 0`. And a `Push` that fails after it has opened the queue
file leaves fewer entries than there were, though no batch was accepted: with 10 entries
and a failed batch send, none is left when the first write fails, and 9 are left when
the current snapshot does not marshal. -/
theorem runSend_shrinks_without_accepted_batch :
    (∀ p ∈ samplePayloads 12, sampleCodec.roundTrips p = true) ∧
    ((queueEntries sampleCodec (sampleQueue 11) defaultBufferPath).length = 11 ∧
      (sampleEnv 12 (Except.error (GoError.httpError 400 "bad request"))
        (Except.ok ⟨"ok", false⟩)).loadConfig = Except.ok sampleConfig ∧
      (runSend noFaults sampleCodec
        (sampleEnv 12 (Except.error (GoError.httpError 400 "bad request"))
          (Except.ok ⟨"ok", false⟩)) (sampleQueue 11)).2 =
        [Event.sentBatch (samplePayloads 11), Event.logged Warning.batchFailedBuffered] ∧
      (queueEntries sampleCodec (runSend noFaults sampleCodec
        (sampleEnv 12 (Except.error (GoError.httpError 400 "bad request"))
          (Except.ok ⟨"ok", false⟩)) (sampleQueue 11)).1 defaultBufferPath).length = 10) ∧
    ((queueEntries sampleCodec (sampleQueue 1) defaultBufferPath).length = 1 ∧
      (runSend noFaults sampleCodec
        (sampleEnv 2 (Except.ok ⟨"ok", 2, -1, []⟩) (Except.ok ⟨"ok", false⟩))
          (sampleQueue 1)).2 =
        [Event.sentBatch (samplePayloads 1), Event.sentPayload (samplePayload 2)] ∧
      (queueEntries sampleCodec (runSend noFaults sampleCodec
        (sampleEnv 2 (Except.ok ⟨"ok", 2, -1, []⟩) (Except.ok ⟨"ok", false⟩))
          (sampleQueue 1)).1 defaultBufferPath).length = 0) ∧
    ((queueEntries sampleCodec (sampleQueue 10) defaultBufferPath).length = 10 ∧
      (runSend { noFaults with pushWrite := writeFails 0 0 } sampleCodec
        (sampleEnv 11 (Except.error (GoError.httpError 400 "bad request"))
          (Except.ok ⟨"ok", false⟩)) (sampleQueue 10)).2 =
        [Event.sentBatch (samplePayloads 10),
          Event.logged Warning.batchFailedBufferingFailed] ∧
      (queueEntries sampleCodec (runSend { noFaults with pushWrite := writeFails 0 0 }
        sampleCodec
        (sampleEnv 11 (Except.error (GoError.httpError 400 "bad request"))
          (Except.ok ⟨"ok", false⟩)) (sampleQueue 10)).1 defaultBufferPath).length = 0) ∧
    (sampleCodec.marshal (samplePayload 13) =
        Except.error (GoError.jsonError "unsupported value") ∧
      (runSend noFaults sampleCodec
        (sampleEnv 13 (Except.error (GoError.httpError 400 "bad request"))
          (Except.ok ⟨"ok", false⟩)) (sampleQueue 10)).2 =
        [Event.sentBatch (samplePayloads 10),
          Event.logged Warning.batchFailedBufferingFailed] ∧
      (queueEntries sampleCodec (runSend noFaults sampleCodec
        (sampleEnv 13 (Except.error (GoError.httpError 400 "bad request"))
          (Except.ok ⟨"ok", false⟩)) (sampleQueue 10)).1 defaultBufferPath).length = 9) := by
  decide

/-! ## Tolerant reading -/

theorem byteLen_replicate_x (n : Nat) : byteLen (List.replicate n 'x') = n := by
  induction n with
  | zero => rfl
  | succ n ih =>
    have h : byteLen (List.replicate (n + 1) 'x') = byteLen (List.replicate n 'x') + 1 := rfl
    rw [h, ih]

theorem not_mem_replicate_x (n : Nat) : '\n' ∉ List.replicate n 'x' := by
  intro h
  have := List.eq_of_mem_replicate h
  exact absurd this (by decide)

/-- C9, as the code has it. For a queue file whose lines are all shorter than the
token limit of the scanner (64 KiB, the newline apart), `Flush` does not fail: it
returns the snapshots of the well-formed lines in file order and skips every other
line. -/
theorem Flush_skips_malformed_lines (c : JSONCodec) (b : Buffer) (fs : FS) (content : String)
    (hfile : fs b.path = some content)
    (hshort : ∀ l ∈ fileLines content, l.utf8ByteSize < 64 * 1024) :
    b.Flush noReadFaults c fs = Except.ok ((fileLines content).filterMap (readLine c)) := by
  obtain ⟨h1, h2⟩ := fileLines_spec content
  have h := readAll_lines c (fileLines content) h2 hshort
  rw [← h1] at h
  simp only [Flush_intact, hfile]
  exact h

theorem Flush_skips_malformed_lines_witness :
    payloadBuffer.Flush noReadFaults sampleCodec
        (fun _ => some ("not json\n  " ++ sampleLine 1 ++ "\r\n" ++ sampleLine 2 ++ "\n")) =
      Except.ok [samplePayload 1, samplePayload 2] :=
  Flush_skips_malformed_lines sampleCodec payloadBuffer
    (fun _ => some ("not json\n  " ++ sampleLine 1 ++ "\r\n" ++ sampleLine 2 ++ "\n"))
    ("not json\n  " ++ sampleLine 1 ++ "\r\n" ++ sampleLine 2 ++ "\n") rfl (by decide)

theorem Flush_long_line_data (c : JSONCodec) (b : Buffer) (fs : FS) (content : String)
    (first long rest : List Char) (h1 : '\n' ∉ first) (h2 : byteLen first < MaxScanTokenSize)
    (h3 : '\n' ∉ long) (h4 : MaxScanTokenSize ≤ byteLen long)
    (hfile : fs b.path = some content)
    (hd : content.data = first ++ '\n' :: (long ++ '\n' :: rest)) :
    b.Flush noReadFaults c fs = Except.error GoError.errTooLong := by
  simp only [Flush_intact, hfile, readAll, scanReader, scan, hd]
  rw [rawLines_append_newline _ _ _ h1, rawLines_append_newline _ _ _ h3]
  simp only [List.nil_append, scanTokens, Nat.not_le.2 h2, h4, if_true, if_false]

theorem Flush_long_line (c : JSONCodec) (b : Buffer) (fs : FS) (first rest : String)
    (long : List Char) (h1 : '\n' ∉ first.data) (h2 : byteLen first.data < MaxScanTokenSize)
    (h3 : '\n' ∉ long) (h4 : MaxScanTokenSize ≤ byteLen long)
    (hfile : fs b.path = some (first ++ "\n" ++ String.mk long ++ "\n" ++ rest)) :
    b.Flush noReadFaults c fs = Except.error GoError.errTooLong := by
  have hd : (first ++ "\n" ++ String.mk long ++ "\n" ++ rest).data =
      first.data ++ '\n' :: (long ++ '\n' :: rest.data) := by
    simp only [String.data_append, List.append_assoc]
    rfl
  exact Flush_long_line_data c b fs _ first.data long rest.data h1 h2 h3 h4 hfile hd

/-- C9 as stated fails on a line that does not fit the buffer of the scanner: a queue
file with two well-formed lines and, between them, a line of 70000 bytes makes `Flush`
return `bufio.ErrTooLong` instead of the two entries. -/
theorem Flush_fails_on_long_line :
    payloadBuffer.Flush noReadFaults sampleCodec
        (fun _ => some (sampleLine 1 ++ "\n" ++ String.mk (List.replicate 70000 'x') ++ "\n" ++
          (sampleLine 2 ++ "\n"))) =
      Except.error GoError.errTooLong :=
  Flush_long_line sampleCodec payloadBuffer _ (sampleLine 1) (sampleLine 2 ++ "\n")
    (List.replicate 70000 'x') (by decide) (by decide) (not_mem_replicate_x _)
    (by rw [byteLen_replicate_x]; decide) rfl

/-! ## Snapshots that are pushed and do not read back -/

theorem length_le_byteLen (l : List Char) : l.length ≤ byteLen l := by
  induction l with
  | nil => exact Nat.le_refl _
  | cons a l ih =>
    have h : byteLen (a :: l) = byteLen l + a.utf8Size := rfl
    have ha : 0 < a.utf8Size := Char.utf8Size_pos a
    rw [h, List.length_cons]
    omega

theorem longLine_no_newline : '\n' ∉ longLine := by
  intro h
  simp only [longLine, List.mem_cons, List.mem_append, List.mem_singleton,
    List.not_mem_nil, or_false] at h
  rcases h with h | h | h
  · exact absurd h (by decide)
  · exact not_mem_replicate_x _ h
  · exact absurd h (by decide)

theorem length_braced (n : Nat) (a b x : Char) :
    (a :: (List.replicate n x ++ [b])).length = n + 2 := by
  simp

theorem longLine_long : MaxScanTokenSize ≤ byteLen longLine := by
  have h := length_le_byteLen longLine
  have hl : longLine.length = 70000 + 2 := length_braced 70000 _ _ _
  have hm : MaxScanTokenSize = 65536 := by decide
  omega

theorem longLineCodec_marshal_long :
    longLineCodec.marshal longPayload = Except.ok (String.mk longLine) := by
  show (if longPayload.TS = 13 then Except.ok (String.mk longLine)
    else sampleCodec.marshal longPayload) = _
  exact if_pos rfl

/-- C3 as stated fails for a snapshot whose line does not fit the buffer of the scanner,
and when a `Push` fails. With capacity 2, two sample snapshots and then a snapshot with a
host name of 70000 characters are pushed: each `Push` returns no error, and `Flush`
afterwards returns `bufio.ErrTooLong` and no snapshot. And when the write of the third
of three `Push` calls fails after three characters, `Flush` afterwards returns no
snapshot. -/
theorem pushed_snapshots_not_returned :
    ((NewBuffer "q" 2).Push noReadFaults noWriteFaults longLineCodec (fun _ => none)
        (some (samplePayload 1))).2 = none ∧
    ((NewBuffer "q" 2).Push noReadFaults noWriteFaults longLineCodec
        (pushAll longLineCodec (NewBuffer "q" 2) (fun _ => none) [samplePayload 1])
        (some (samplePayload 2))).2 = none ∧
    ((NewBuffer "q" 2).Push noReadFaults noWriteFaults longLineCodec
        (pushAll longLineCodec (NewBuffer "q" 2) (fun _ => none)
          [samplePayload 1, samplePayload 2])
        (some longPayload)).2 = none ∧
    (NewBuffer "q" 2).Flush noReadFaults longLineCodec
        (pushAll longLineCodec (NewBuffer "q" 2) (fun _ => none)
          [samplePayload 1, samplePayload 2, longPayload]) =
      Except.error GoError.errTooLong ∧
    ((NewBuffer "q" 2).Push noReadFaults (writeFails 0 3) sampleCodec
        (pushAll sampleCodec (NewBuffer "q" 2) (fun _ => none)
          [samplePayload 1, samplePayload 2])
        (some (samplePayload 3))).2 = some (GoError.osError "no space left on device") ∧
    (NewBuffer "q" 2).Flush noReadFaults sampleCodec
        ((NewBuffer "q" 2).Push noReadFaults (writeFails 0 3) sampleCodec
          (pushAll sampleCodec (NewBuffer "q" 2) (fun _ => none)
            [samplePayload 1, samplePayload 2])
          (some (samplePayload 3))).1 = Except.ok [] := by
  have hf : (NewBuffer "q" 2).Flush noReadFaults longLineCodec
      (pushAll longLineCodec (NewBuffer "q" 2) (fun _ => none)
        [samplePayload 1, samplePayload 2]) =
      Except.ok [samplePayload 1, samplePayload 2] := by decide
  have hm2 : longLineCodec.marshal (samplePayload 2) = Except.ok (sampleLine 2) := by decide
  have hpush := Push_intact longLineCodec (NewBuffer "q" 2)
    (pushAll longLineCodec (NewBuffer "q" 2) (fun _ => none) [samplePayload 1, samplePayload 2])
    longPayload _ hf (by decide)
  have hlast : lastN (NewBuffer "q" 2).maxSize.toNat
      ([samplePayload 1, samplePayload 2] ++ [longPayload]) = [samplePayload 2, longPayload] :=
    rfl
  rw [hlast, writeAll_intact] at hpush
  have henc : encodeAll noWriteFaults longLineCodec "" 0 [samplePayload 2, longPayload] =
      ("" ++ sampleLine 2 ++ "\n" ++ String.mk longLine ++ "\n", none) := by
    simp only [encodeAll, hm2, longLineCodec_marshal_long, noWriteFaults_writeErr]
  rw [henc] at hpush
  have hall : pushAll longLineCodec (NewBuffer "q" 2) (fun _ => none)
      [samplePayload 1, samplePayload 2, longPayload] =
      ((NewBuffer "q" 2).Push noReadFaults noWriteFaults longLineCodec
        (pushAll longLineCodec (NewBuffer "q" 2) (fun _ => none)
          [samplePayload 1, samplePayload 2]) (some longPayload)).1 := rfl
  refine ⟨by decide, by decide, by rw [hpush], ?_, by decide, by decide⟩
  rw [hall, hpush]
  apply Flush_long_line_data longLineCodec (NewBuffer "q" 2) _
    ("" ++ sampleLine 2 ++ "\n" ++ String.mk longLine ++ "\n") (sampleLine 2).data longLine []
    (by decide) (by decide) longLine_no_newline longLine_long
  · simp only [write_same]
  · simp only [String.data_append, List.append_assoc]
    rfl

/-! ## Rewriting the queue file -/

theorem encodeAll_all_written (io : WriteFaults) (c : JSONCodec) (items : List Payload)
    (content : String) (index : Nat) (hw : ∀ i, io.writeErr i = none)
    (hm : ∀ p ∈ items, ∃ line, c.marshal p = Except.ok line) :
    (encodeAll io c content index items).2 = none := by
  induction items generalizing content index with
  | nil => rfl
  | cons p items ih =>
    obtain ⟨line, hl⟩ := hm p (by simp)
    unfold encodeAll
    simp only [hl, hw]
    exact ih _ _ (fun q hq => hm q (by simp [hq]))

theorem writeAll_all_written (io : WriteFaults) (c : JSONCodec) (b : Buffer) (fs : FS)
    (items : List Payload) (h1 : io.mkdirErr = none) (h2 : io.openErr = none)
    (hw : ∀ i, io.writeErr i = none) (hm : ∀ p ∈ items, ∃ line, c.marshal p = Except.ok line) :
    (b.writeAll io c fs items).1 = fs.write b.path (encodedText c items) ∧
      (b.writeAll io c fs items).2 = io.syncErr := by
  have h3 := encodeAll_all_written io c items "" 0 hw hm
  have h4 := encodeAll_complete io c items "" 0 h3
  simp only [Buffer.writeAll, h1, h2, h3, h4]
  simp

theorem rawLines_short_then_long (lines : List (List Char)) (long rest : List Char)
    (h1 : ∀ l ∈ lines, '\n' ∉ l) (h3 : '\n' ∉ long) :
    rawLines [] (lines.flatMap (fun l => l ++ ['\n']) ++ (long ++ '\n' :: rest)) =
      lines ++ long :: rawLines [] rest := by
  induction lines with
  | nil =>
    simp only [List.flatMap_nil, List.nil_append]
    rw [rawLines_append_newline _ _ _ h3]
    simp
  | cons a lines ih =>
    have ha : '\n' ∉ a := h1 a (by simp)
    simp only [List.flatMap_cons, List.append_assoc, List.singleton_append, List.cons_append]
    rw [rawLines_append_newline _ _ _ ha]
    simp only [List.nil_append]
    rw [ih (fun l hl => h1 l (by simp [hl]))]

theorem scanTokens_short_then_long (lines : List (List Char)) (long : List Char)
    (tail : List (List Char)) (h2 : ∀ l ∈ lines, byteLen l < MaxScanTokenSize)
    (h4 : MaxScanTokenSize ≤ byteLen long) :
    (scanTokens (lines ++ long :: tail)).2 = some GoError.errTooLong := by
  induction lines with
  | nil => simp [scanTokens, h4]
  | cons a lines ih =>
    have ha : ¬ MaxScanTokenSize ≤ byteLen a := Nat.not_le.2 (h2 a (by simp))
    simp only [List.cons_append, scanTokens, ha, if_false]
    exact ih (fun l hl => h2 l (by simp [hl]))

/-- A queue file with a line that does not fit the buffer of the scanner, after lines
that do: `Flush` returns `bufio.ErrTooLong`. -/
theorem Flush_too_long (c : JSONCodec) (b : Buffer) (fs : FS) (content : String)
    (lines : List (List Char)) (long rest : List Char)
    (h1 : ∀ l ∈ lines, '\n' ∉ l) (h2 : ∀ l ∈ lines, byteLen l < MaxScanTokenSize)
    (h3 : '\n' ∉ long) (h4 : MaxScanTokenSize ≤ byteLen long)
    (hfile : fs b.path = some content)
    (hd : content.data = lines.flatMap (fun l => l ++ ['\n']) ++ (long ++ '\n' :: rest)) :
    b.Flush noReadFaults c fs = Except.error GoError.errTooLong := by
  simp only [Flush_intact, hfile, readAll, scanReader, scan, hd]
  rw [rawLines_short_then_long lines long rest h1 h3,
    scanTokens_short_then_long lines long _ h2 h4]

theorem lineOf_long : longLineCodec.lineOf longPayload = String.mk longLine := by
  simp only [JSONCodec.lineOf, longLineCodec_marshal_long]

theorem Push_long_ok (fs : FS) (items : List Payload)
    (hf : payloadBuffer.Flush noReadFaults longLineCodec fs = Except.ok items)
    (hm : ∀ p ∈ items, ∃ line, longLineCodec.marshal p = Except.ok line) :
    (payloadBuffer.Push noReadFaults noWriteFaults longLineCodec fs (some longPayload)).2 =
      none := by
  rw [Push_intact longLineCodec payloadBuffer fs longPayload items hf (by decide)]
  refine (writeAll_all_written noWriteFaults longLineCodec payloadBuffer fs _ rfl rfl
    (fun _ => rfl) ?_).2
  intro p hp
  rcases List.mem_append.1 (List.mem_of_mem_drop hp) with hp | hp
  · exact hm p hp
  · simp only [List.mem_singleton] at hp
    exact ⟨_, hp ▸ longLineCodec_marshal_long⟩

/-- A cycle with an accepted batch and a failed single send whose current snapshot has a
line that does not fit the buffer of the scanner: `Clear` and `Push` return no error,
and the queue cannot be read afterwards. -/
theorem long_snapshot_after_accepted_batch :
    payloadBuffer.Flush noReadFaults longLineCodec
        (runSend noFaults longLineCodec
          (longEnv (Except.ok ⟨"ok", 2, 0, []⟩)
            (Except.error (GoError.transport (TransportError.netError "connection refused"))))
          (sampleQueue 2)).1 = Except.error GoError.errTooLong ∧
    (runSend noFaults longLineCodec
        (longEnv (Except.ok ⟨"ok", 2, 0, []⟩)
          (Except.error (GoError.transport (TransportError.netError "connection refused"))))
        (sampleQueue 2)).2 =
      [Event.sentBatch (samplePayloads 2), Event.sentPayload longPayload,
        Event.logged Warning.sendFailedBuffered] := by
  obtain ⟨h1, h2, -⟩ := runSend_accepted_then_failed noFaults longLineCodec
    (longEnv (Except.ok ⟨"ok", 2, 0, []⟩)
      (Except.error (GoError.transport (TransportError.netError "connection refused"))))
    (sampleQueue 2) sampleConfig longPayload (samplePayloads 2) ⟨"ok", 2, 0, []⟩
    (GoError.transport (TransportError.netError "connection refused"))
    rfl rfl (by decide) (by decide) (by decide) rfl rfl rfl
    (Clear_spec longLineCodec payloadBuffer _).1
    (Push_long_ok _ [] (Clear_spec longLineCodec payloadBuffer _).2.1
      (fun p hp => absurd hp (List.not_mem_nil p)))
  refine ⟨?_, h2⟩
  apply Flush_too_long longLineCodec payloadBuffer _ _ [] longLine []
    (fun l hl => absurd hl (List.not_mem_nil l)) (fun l hl => absurd hl (List.not_mem_nil l))
    longLine_no_newline longLine_long h1
  rw [lineOf_long]
  rfl

/-- A cycle with a rejected batch whose current snapshot has a line that does not fit
the buffer of the scanner: `Push` returns no error, and the queue cannot be read
afterwards. -/
theorem long_snapshot_after_rejected_batch :
    payloadBuffer.Flush noReadFaults longLineCodec
        (runSend noFaults longLineCodec
          (longEnv (Except.ok ⟨"ok", 0, 1, ["invalid"]⟩) (Except.ok ⟨"ok", false⟩))
          (sampleQueue 1)).1 = Except.error GoError.errTooLong ∧
    (runSend noFaults longLineCodec
        (longEnv (Except.ok ⟨"ok", 0, 1, ["invalid"]⟩) (Except.ok ⟨"ok", false⟩))
        (sampleQueue 1)).2 =
      [Event.sentBatch (samplePayloads 1), Event.logged Warning.batchRejectedBuffered] := by
  have hf : payloadBuffer.Flush noReadFaults longLineCodec
      (migrateLegacyBufferFile (sampleQueue 1) defaultBufferPath legacyBufferPath) =
      Except.ok (samplePayloads 1) := by decide
  have hpush := Push_long_ok _ (samplePayloads 1) hf (by
    intro p hp
    have : p = samplePayload 1 := by
      simp only [samplePayloads, List.range, List.range.loop, List.map_cons, List.map_nil,
        List.mem_singleton] at hp
      exact hp
    exact ⟨_, this ▸ (by decide : longLineCodec.marshal (samplePayload 1) =
      Except.ok (sampleLine 1))⟩)
  have hn : (0 : Int) < ((samplePayloads 1).length : Int) := by decide
  rw [runSend_eq noFaults longLineCodec
      (longEnv (Except.ok ⟨"ok", 0, 1, ["invalid"]⟩) (Except.ok ⟨"ok", false⟩)) (sampleQueue 1)
      sampleConfig longPayload rfl rfl,
    sendCycle_backlog noFaults longLineCodec _ _ _ _ _ (samplePayloads 1) (by decide) hn hf
      (by decide)]
  have hb : ((longEnv (Except.ok ⟨"ok", 0, 1, ["invalid"]⟩)
      (Except.ok ⟨"ok", false⟩)).newClient sampleConfig
      sampleConfig.AllowInsecureLocalhost).SendBatch (samplePayloads 1) =
      Except.ok ⟨"ok", 0, 1, ["invalid"]⟩ := rfl
  have hrej : (0 : Int) < (⟨"ok", 0, 1, ["invalid"]⟩ : BatchResponse).Rejected := by decide
  simp only [hb, gt_iff_lt, hrej, if_true]
  have hpush' : (payloadBuffer.Push noFaults.pushRead noFaults.pushWrite longLineCodec
      (migrateLegacyBufferFile (sampleQueue 1) defaultBufferPath legacyBufferPath)
      (some longPayload)).2 = none := hpush
  obtain ⟨s1, -⟩ := Push_stored noFaults.pushRead noFaults.pushWrite longLineCodec payloadBuffer _
    longPayload (samplePayloads 1) hf (by decide) hpush'
  refine ⟨?_, by simp [hpush']⟩
  apply Flush_too_long longLineCodec payloadBuffer _ _ [(sampleLine 1).data] longLine []
    (by decide) (by decide) longLine_no_newline longLine_long s1
  have hl : lastN payloadBuffer.maxSize.toNat (samplePayloads 1 ++ [longPayload]) =
      [samplePayload 1, longPayload] := rfl
  have h1 : longLineCodec.lineOf (samplePayload 1) = sampleLine 1 := by decide
  rw [hl, encodedText_cons, encodedText_singleton, lineOf_long, h1]
  simp only [String.data_append, List.flatMap_cons, List.flatMap_nil, List.append_nil,
    List.append_assoc]

/-- C1 as stated fails when `Clear` or `Push` fails, and when the line of the current
snapshot does not read back, in a cycle with two buffered snapshots, a batch response
with `rejected = 0` and a failed single send. When `Clear` cannot open the queue file,
the cycle logs it and goes on: the two buffered snapshots stay, and the queue holds them
and the current snapshot afterwards; it holds the two of them only when `Push` cannot
open the file either. When the write of `Push` fails after five characters, the queue
file holds a part of a line and no entry. When the current snapshot does not marshal,
`Push` fails and leaves the queue file empty. And when the line of the current snapshot
does not fit the buffer of the scanner, `Clear` and `Push` return no error and `Flush`
afterwards returns `bufio.ErrTooLong`. -/
theorem queue_after_failed_clear_or_push :
    (payloadBuffer.Flush noReadFaults sampleCodec
        (runSend { noFaults with clear := openFails } sampleCodec
          (sampleEnv 3 (Except.ok ⟨"ok", 2, 0, []⟩)
            (Except.error (GoError.transport (TransportError.netError "connection refused"))))
          (sampleQueue 2)).1 =
        Except.ok [samplePayload 1, samplePayload 2, samplePayload 3] ∧
      (runSend { noFaults with clear := openFails } sampleCodec
          (sampleEnv 3 (Except.ok ⟨"ok", 2, 0, []⟩)
            (Except.error (GoError.transport (TransportError.netError "connection refused"))))
          (sampleQueue 2)).2 =
        [Event.sentBatch (samplePayloads 2), Event.logged Warning.clearBufferFailed,
          Event.sentPayload (samplePayload 3), Event.logged Warning.sendFailedBuffered]) ∧
    (payloadBuffer.Flush noReadFaults sampleCodec
        (runSend { noFaults with clear := openFails, pushWrite := openFails } sampleCodec
          (sampleEnv 3 (Except.ok ⟨"ok", 2, 0, []⟩)
            (Except.error (GoError.transport (TransportError.netError "connection refused"))))
          (sampleQueue 2)).1 =
        Except.ok [samplePayload 1, samplePayload 2] ∧
      (runSend { noFaults with clear := openFails, pushWrite := openFails } sampleCodec
          (sampleEnv 3 (Except.ok ⟨"ok", 2, 0, []⟩)
            (Except.error (GoError.transport (TransportError.netError "connection refused"))))
          (sampleQueue 2)).2 =
        [Event.sentBatch (samplePayloads 2), Event.logged Warning.clearBufferFailed,
          Event.sentPayload (samplePayload 3),
          Event.logged Warning.sendFailedBufferingFailed]) ∧
    ((runSend { noFaults with pushWrite := writeFails 0 5 } sampleCodec
          (sampleEnv 3 (Except.ok ⟨"ok", 2, 0, []⟩)
            (Except.error (GoError.transport (TransportError.netError "connection refused"))))
          (sampleQueue 2)).1 defaultBufferPath = some "\x7b\"ts\"" ∧
      payloadBuffer.Flush noReadFaults sampleCodec
        (runSend { noFaults with pushWrite := writeFails 0 5 } sampleCodec
          (sampleEnv 3 (Except.ok ⟨"ok", 2, 0, []⟩)
            (Except.error (GoError.transport (TransportError.netError "connection refused"))))
          (sampleQueue 2)).1 = Except.ok [] ∧
      (runSend { noFaults with pushWrite := writeFails 0 5 } sampleCodec
          (sampleEnv 3 (Except.ok ⟨"ok", 2, 0, []⟩)
            (Except.error (GoError.transport (TransportError.netError "connection refused"))))
          (sampleQueue 2)).2 =
        [Event.sentBatch (samplePayloads 2), Event.sentPayload (samplePayload 3),
          Event.logged Warning.sendFailedBufferingFailed]) ∧
    (sampleCodec.marshal (samplePayload 13) =
        Except.error (GoError.jsonError "unsupported value") ∧
      payloadBuffer.Flush noReadFaults sampleCodec
        (runSend noFaults sampleCodec
          (sampleEnv 13 (Except.ok ⟨"ok", 2, 0, []⟩)
            (Except.error (GoError.transport (TransportError.netError "connection refused"))))
          (sampleQueue 2)).1 = Except.ok [] ∧
      (runSend noFaults sampleCodec
          (sampleEnv 13 (Except.ok ⟨"ok", 2, 0, []⟩)
            (Except.error (GoError.transport (TransportError.netError "connection refused"))))
          (sampleQueue 2)).2 =
        [Event.sentBatch (samplePayloads 2), Event.sentPayload (samplePayload 13),
          Event.logged Warning.sendFailedBufferingFailed]) ∧
    (payloadBuffer.Flush noReadFaults longLineCodec
        (runSend noFaults longLineCodec
          (longEnv (Except.ok ⟨"ok", 2, 0, []⟩)
            (Except.error (GoError.transport (TransportError.netError "connection refused"))))
          (sampleQueue 2)).1 = Except.error GoError.errTooLong ∧
      (runSend noFaults longLineCodec
          (longEnv (Except.ok ⟨"ok", 2, 0, []⟩)
            (Except.error (GoError.transport (TransportError.netError "connection refused"))))
          (sampleQueue 2)).2 =
        [Event.sentBatch (samplePayloads 2), Event.sentPayload longPayload,
          Event.logged Warning.sendFailedBuffered]) :=
  ⟨by decide, by decide, by decide, by decide, long_snapshot_after_accepted_batch⟩

/-- C2 as stated fails when the queue is full, when `Push` fails, and when the line of
the current snapshot does not read back. With 10 buffered snapshots and a batch response
with `rejected = 1`, the cycle pushes the current snapshot, which evicts the oldest
buffered one. With one buffered snapshot and a batch response with `rejected = 1`: a
`Push` that cannot open the queue file leaves the queue without the current snapshot; a
`Push` whose first write fails leaves the queue empty, the buffered snapshot gone; and
when the line of the current snapshot does not fit the buffer of the scanner, `Push`
returns no error and `Flush` afterwards returns `bufio.ErrTooLong`. -/
theorem full_queue_evicts_after_rejected_batch :
    (payloadBuffer.Flush noReadFaults sampleCodec (sampleQueue 10) =
        Except.ok (samplePayloads 10) ∧
      (∀ p ∈ samplePayloads 10 ++ [samplePayload 11], sampleCodec.roundTrips p = true) ∧
      payloadBuffer.Flush noReadFaults sampleCodec
          (runSend noFaults sampleCodec
            (sampleEnv 11 (Except.ok ⟨"ok", 9, 1, ["invalid"]⟩) (Except.ok ⟨"ok", false⟩))
            (sampleQueue 10)).1 =
        Except.ok ((samplePayloads 10).drop 1 ++ [samplePayload 11]) ∧
      payloadBuffer.Flush noReadFaults sampleCodec
          (runSend noFaults sampleCodec
            (sampleEnv 11 (Except.ok ⟨"ok", 9, 1, ["invalid"]⟩) (Except.ok ⟨"ok", false⟩))
            (sampleQueue 10)).1 ≠
        Except.ok (samplePayloads 10 ++ [samplePayload 11])) ∧
    (payloadBuffer.Flush noReadFaults sampleCodec
          (runSend { noFaults with pushWrite := openFails } sampleCodec
            (sampleEnv 2 (Except.ok ⟨"ok", 0, 1, ["invalid"]⟩) (Except.ok ⟨"ok", false⟩))
            (sampleQueue 1)).1 = Except.ok [samplePayload 1] ∧
      (runSend { noFaults with pushWrite := openFails } sampleCodec
          (sampleEnv 2 (Except.ok ⟨"ok", 0, 1, ["invalid"]⟩) (Except.ok ⟨"ok", false⟩))
          (sampleQueue 1)).2 =
        [Event.sentBatch (samplePayloads 1),
          Event.logged Warning.batchRejectedBufferingFailed]) ∧
    (payloadBuffer.Flush noReadFaults sampleCodec
          (runSend { noFaults with pushWrite := writeFails 0 0 } sampleCodec
            (sampleEnv 2 (Except.ok ⟨"ok", 0, 1, ["invalid"]⟩) (Except.ok ⟨"ok", false⟩))
            (sampleQueue 1)).1 = Except.ok [] ∧
      (runSend { noFaults with pushWrite := writeFails 0 0 } sampleCodec
          (sampleEnv 2 (Except.ok ⟨"ok", 0, 1, ["invalid"]⟩) (Except.ok ⟨"ok", false⟩))
          (sampleQueue 1)).2 =
        [Event.sentBatch (samplePayloads 1),
          Event.logged Warning.batchRejectedBufferingFailed]) ∧
    (payloadBuffer.Flush noReadFaults longLineCodec
        (runSend noFaults longLineCodec
          (longEnv (Except.ok ⟨"ok", 0, 1, ["invalid"]⟩) (Except.ok ⟨"ok", false⟩))
          (sampleQueue 1)).1 = Except.error GoError.errTooLong ∧
      (runSend noFaults longLineCodec
          (longEnv (Except.ok ⟨"ok", 0, 1, ["invalid"]⟩) (Except.ok ⟨"ok", false⟩))
          (sampleQueue 1)).2 =
        [Event.sentBatch (samplePayloads 1), Event.logged Warning.batchRejectedBuffered]) :=
  ⟨by decide, by decide, by decide, long_snapshot_after_rejected_batch⟩

/-! ## The retry loop -/

theorem attempts_cons_attempt (n : Nat) (req : Request) (steps : List Step) :
    attempts (Step.attempt n req :: steps) = attempts steps + 1 := by
  simp [attempts]

theorem attempts_cons_backoff (n : Nat) (steps : List Step) :
    attempts (Step.backoff n :: steps) = attempts steps := by
  simp [attempts]

theorem backoffs_cons_attempt (n : Nat) (req : Request) (steps : List Step) :
    backoffs (Step.attempt n req :: steps) = backoffs steps := by
  simp [backoffs]

theorem backoffs_cons_backoff (n : Nat) (steps : List Step) :
    backoffs (Step.backoff n :: steps) = backoffs steps + 1 := by
  simp [backoffs]

/-- One iteration of the loop whose outcome is retryable, with attempts left and the
context not done: the loop backs off and goes on with the next attempt. -/
theorem retryLoop_retry (env : HTTPEnv) (ctx : Context) (req : Request) (maxRetries : Int)
    (remaining a : Nat) (ho : retryableOutcome (env.roundTrip req a) = true)
    (hne : (a : Int) ≠ maxRetries) (hctx : ctx.doneDuring a = none) :
    retryLoop env ctx req maxRetries (remaining + 1) a =
      ((retryLoop env ctx req maxRetries remaining (a + 1)).1,
        Step.attempt a req :: Step.backoff a ::
          (retryLoop env ctx req maxRetries remaining (a + 1)).2) := by
  unfold retryableOutcome at ho
  rw [retryLoop]
  cases hr : env.roundTrip req a with
  | ok resp =>
    rw [hr] at ho
    have ho' : isRetryableStatus resp.StatusCode = true := ho
    simp only [ho', Bool.not_true, Bool.false_eq_true, if_false, hne, hctx]
  | error err =>
    rw [hr] at ho
    have ho' : isRetryableError err = true := ho
    simp only [ho', Bool.not_true, Bool.false_eq_true, if_false, hne, hctx]

/-- After `k` retryable outcomes, with attempts left and the context not done, the loop
is at the attempt with index `a + k`, having made `k` attempts and `k` backoffs. -/
theorem retryLoop_skip (env : HTTPEnv) (ctx : Context) (req : Request) (maxRetries : Int)
    (k : Nat) : ∀ (remaining a : Nat),
    ((a + k : Nat) : Int) ≤ maxRetries →
    (∀ i, i < k → retryableOutcome (env.roundTrip req (a + i)) = true) →
    (∀ i, i < k → ctx.doneDuring (a + i) = none) →
    (retryLoop env ctx req maxRetries (remaining + k) a).1 =
      (retryLoop env ctx req maxRetries remaining (a + k)).1 ∧
    attempts (retryLoop env ctx req maxRetries (remaining + k) a).2 =
      k + attempts (retryLoop env ctx req maxRetries remaining (a + k)).2 ∧
    backoffs (retryLoop env ctx req maxRetries (remaining + k) a).2 =
      k + backoffs (retryLoop env ctx req maxRetries remaining (a + k)).2 := by
  induction k with
  | zero => intro remaining a _ _ _; simp
  | succ k ih =>
    intro remaining a hle ho hctx
    have h0 := ho 0 (by omega)
    have c0 := hctx 0 (by omega)
    simp only [Nat.add_zero] at h0 c0
    have hne : (a : Int) ≠ maxRetries := by omega
    have e : remaining + (k + 1) = (remaining + k) + 1 := by omega
    rw [e, retryLoop_retry env ctx req maxRetries (remaining + k) a h0 hne c0]
    obtain ⟨i1, i2, i3⟩ := ih remaining (a + 1) (by push_cast at hle ⊢; omega)
      (fun i hi => by have := ho (i + 1) (by omega); rwa [show a + (i + 1) = a + 1 + i by omega] at this)
      (fun i hi => by have := hctx (i + 1) (by omega); rwa [show a + (i + 1) = a + 1 + i by omega] at this)
    have e2 : a + 1 + k = a + (k + 1) := by omega
    rw [e2] at i1 i2 i3
    simp only [attempts_cons_attempt, attempts_cons_backoff, backoffs_cons_attempt,
      backoffs_cons_backoff]
    refine ⟨i1, by omega, by omega⟩

theorem isRetryableStatus_iff (s : Int) :
    isRetryableStatus s = true ↔ s = 429 ∨ s = 500 ∨ s = 502 ∨ s = 503 ∨ s = 504 := by
  simp [isRetryableStatus, or_assoc]

theorem not_retryable_of_2xx (s : Int) (h1 : 200 ≤ s) (h2 : s < 300) :
    isRetryableStatus s = false := by
  cases h : isRetryableStatus s with
  | false => rfl
  | true =>
    rw [isRetryableStatus_iff] at h
    omega

/-- C5. When the transport answers the first `k ≤ 3` attempts of a call with one of the
retryable statuses and the next attempt with a 2xx response, and the context is not
done, `doWithRetry` makes exactly `k + 1` attempts, with `k` backoffs, and returns the
response of the last attempt. -/
theorem doWithRetry_succeeds_after_retries (env : HTTPEnv) (cl : Client) (ctx : Context)
    (req : Request) (s : Int) (k : Nat) (resp : Response)
    (hs : s = 429 ∨ s = 500 ∨ s = 502 ∨ s = 503 ∨ s = 504) (hk : k ≤ 3)
    (hfirst : ∀ i, i < k → ∃ body, env.roundTrip req i = Except.ok ⟨s, body⟩)
    (hlast : env.roundTrip req k = Except.ok resp)
    (h2xx : 200 ≤ resp.StatusCode ∧ resp.StatusCode < 300)
    (hctx : ∀ i, i < k → ctx.doneDuring i = none) :
    (cl.doWithRetry env ctx req 3).1 = Except.ok resp ∧
    attempts (cl.doWithRetry env ctx req 3).2 = k + 1 ∧
    backoffs (cl.doWithRetry env ctx req 3).2 = k := by
  have hfour : ((3 : Int) + 1).toNat = (3 - k) + 1 + k := by
    have : ((3 : Int) + 1).toNat = 4 := by decide
    omega
  obtain ⟨i1, i2, i3⟩ := retryLoop_skip env ctx req 3 k ((3 - k) + 1) 0
    (by push_cast; omega)
    (fun i hi => by
      obtain ⟨body, hb⟩ := hfirst i hi
      simp only [Nat.zero_add, hb, retryableOutcome]
      exact (isRetryableStatus_iff s).2 hs)
    (fun i hi => by simpa using hctx i hi)
  have hend : retryLoop env ctx req 3 ((3 - k) + 1) (0 + k) =
      (Except.ok resp, [Step.attempt (0 + k) req]) := by
    rw [retryLoop]
    simp only [Nat.zero_add, hlast, not_retryable_of_2xx _ h2xx.1 h2xx.2, Bool.not_false,
      if_true]
  simp only [Client.doWithRetry, hfour]
  rw [i1, i2, i3, hend]
  simp [attempts, backoffs]

theorem doWithRetry_succeeds_after_retries_witness :
    ((sampleClient "https://monitor.example" false).doWithRetry
      (sampleHTTPEnv (fun n =>
        if n < 3 then Except.ok ⟨503, "busy"⟩ else Except.ok ⟨200, "\x7b\x7d"⟩))
      Context.Background sampleRequest 3).1 = Except.ok ⟨200, "\x7b\x7d"⟩ :=
  (doWithRetry_succeeds_after_retries
    (sampleHTTPEnv (fun n =>
      if n < 3 then Except.ok ⟨503, "busy"⟩ else Except.ok ⟨200, "\x7b\x7d"⟩))
    (sampleClient "https://monitor.example" false) Context.Background sampleRequest 503 3
    ⟨200, "\x7b\x7d"⟩ (by decide) (by decide)
    (fun i hi => ⟨"busy", by simp [sampleHTTPEnv, hi]⟩) (by decide) (by decide)
    (fun _ _ => rfl)).1

theorem isLocalhost_iff (env : HTTPEnv) (host : String) :
    isLocalhost env host = true ↔
      host = "localhost" ∨ host = "127.0.0.1" ∨ host = "::1" ∨
        env.isLoopbackIP host = some true := by
  unfold isLocalhost
  by_cases h1 : host = "localhost"
  · simp [h1]
  by_cases h2 : host = "127.0.0.1"
  · simp [h2]
  by_cases h3 : host = "::1"
  · simp [h3]
  simp only [h1, h2, h3, decide_False, Bool.or_self, Bool.false_eq_true, if_false, false_or]
  cases env.isLoopbackIP host with
  | none => simp
  | some b => simp

/-- C8. `validateServerURL` returns no error exactly when the server URL parses and its
scheme is `https`, or its scheme is `http`, the client allows insecure localhost, and
its host name is `localhost`, `127.0.0.1`, `::1` or an IP literal that is loopback. When
it returns an error, `SendPayload`, `SendBatch` and `Enroll` return that error and take
no step on the network. -/
theorem validateServerURL_iff (env : HTTPEnv) (cl : Client) :
    (cl.validateServerURL env = none ↔
      ∃ u, env.parseURL cl.serverURL = Except.ok u ∧
        (u.Scheme = "https" ∨
          (u.Scheme = "http" ∧ cl.allowInsecureLocalhost = true ∧
            (u.Hostname = "localhost" ∨ u.Hostname = "127.0.0.1" ∨ u.Hostname = "::1" ∨
              env.isLoopbackIP u.Hostname = some true)))) ∧
    ∀ err, cl.validateServerURL env = some err →
      (∀ w ctx payload, cl.SendPayload env w ctx payload = (Except.error err, [])) ∧
      (∀ w ctx payloads, cl.SendBatch env w ctx payloads = (Except.error err, [])) ∧
      (∀ w ctx token hostname, cl.Enroll env w ctx token hostname = (Except.error err, [])) := by
  constructor
  · unfold Client.validateServerURL
    cases hp : env.parseURL cl.serverURL with
    | error e => simp
    | ok u =>
      simp only [Except.ok.injEq, exists_eq_left']
      by_cases hs : u.Scheme = "https"
      · simp [hs]
      · by_cases hh : u.Scheme = "http"
        · simp only [hs, hh, if_true, if_false, false_or, true_and]
          rw [← isLocalhost_iff]
          by_cases ha : cl.allowInsecureLocalhost = true
          · by_cases hl : isLocalhost env u.Hostname = true
            · simp [ha, hl]
            · simp [ha, hl]
          · simp [ha]
        · simp [hs, hh]
  · intro err herr
    refine ⟨?_, ?_, ?_⟩
    · intro w ctx payload
      simp [Client.SendPayload, herr]
    · intro w ctx payloads
      simp [Client.SendBatch, herr]
    · intro w ctx token hostname
      simp [Client.Enroll, herr]

theorem validateServerURL_iff_witness :
    (sampleClient "http://127.0.0.1:9000" true).validateServerURL
        (sampleHTTPEnv (fun _ => Except.ok ⟨200, ""⟩)) = none ∧
    (sampleClient "http://127.0.0.1:9000" false).SendPayload
        (sampleHTTPEnv (fun _ => Except.ok ⟨200, ""⟩)) sampleWire Context.Background
        (samplePayload 1) = (Except.error GoError.mustUseHTTPS, []) ∧
    (sampleClient "http://203.0.113.5/api" true).SendPayload
        (sampleHTTPEnv (fun _ => Except.ok ⟨200, ""⟩)) sampleWire Context.Background
        (samplePayload 1) = (Except.error GoError.mustUseHTTPS, []) ∧
    (sampleClient "http://203.0.113.5/api" false).SendBatch
        (sampleHTTPEnv (fun _ => Except.ok ⟨200, ""⟩)) sampleWire Context.Background
        [samplePayload 1] = (Except.error GoError.mustUseHTTPS, []) :=
  ⟨(validateServerURL_iff (sampleHTTPEnv (fun _ => Except.ok ⟨200, ""⟩))
      (sampleClient "http://127.0.0.1:9000" true)).1.2
      ⟨⟨"http", "127.0.0.1"⟩, by decide, Or.inr ⟨rfl, rfl, Or.inr (Or.inl rfl)⟩⟩,
    ((validateServerURL_iff (sampleHTTPEnv (fun _ => Except.ok ⟨200, ""⟩))
      (sampleClient "http://127.0.0.1:9000" false)).2 GoError.mustUseHTTPS (by decide)).1
      sampleWire Context.Background (samplePayload 1),
    ((validateServerURL_iff (sampleHTTPEnv (fun _ => Except.ok ⟨200, ""⟩))
      (sampleClient "http://203.0.113.5/api" true)).2 GoError.mustUseHTTPS (by decide)).1
      sampleWire Context.Background (samplePayload 1),
    ((validateServerURL_iff (sampleHTTPEnv (fun _ => Except.ok ⟨200, ""⟩))
      (sampleClient "http://203.0.113.5/api" false)).2 GoError.mustUseHTTPS (by decide)).2.1
      sampleWire Context.Background [samplePayload 1]⟩

/-! ## Clearing the queue -/

/-- C12. Whatever the queue file held before, also when there was none, and no call of
the operating system failing, `Clear` returns no error and leaves an empty queue file,
`Count` right after it returns 0, and a second `Clear` returns no error and leaves the
file system as the first one left it. No other file changes. -/
theorem Clear_then_Count (c : JSONCodec) (b : Buffer) (fs : FS) :
    (b.Clear noWriteFaults c fs).2 = none ∧
    (b.Clear noWriteFaults c fs).1 b.path = some "" ∧
    b.Count noReadFaults c (b.Clear noWriteFaults c fs).1 = Except.ok 0 ∧
    b.Flush noReadFaults c (b.Clear noWriteFaults c fs).1 = Except.ok [] ∧
    b.Clear noWriteFaults c (b.Clear noWriteFaults c fs).1 = b.Clear noWriteFaults c fs ∧
    ∀ q, q ≠ b.path → (b.Clear noWriteFaults c fs).1 q = fs q := by
  have hflush : b.Flush noReadFaults c (b.Clear noWriteFaults c fs).1 = Except.ok [] :=
    (Clear_spec c b fs).2.1
  refine ⟨rfl, ?_, ?_, hflush, ?_, (Clear_spec c b fs).2.2⟩
  · simp [Buffer.Clear, writeAll_intact, encodeAll, write_same]
  · simp [Buffer.Count, hflush]
  · simp only [Buffer.Clear, writeAll_intact, encodeAll]
    congr 1
    funext q
    by_cases hq : q = b.path <;> simp [FS.write, hq]

/-! ## Responses that do not unmarshal -/

theorem postJSON_of_exchange {α : Type} (env : HTTPEnv) (cl : Client) (ctx : Context)
    (path encoded : String) (withAuth : Bool) (v : α)
    (unmarshal : String → α → Except GoError α) (resp : Response) (steps : List Step)
    (hx : cl.exchange env ctx path encoded withAuth = (Except.ok resp, steps))
    (h1 : 200 ≤ resp.StatusCode) (h2 : resp.StatusCode < 300) :
    cl.postJSON env ctx path (Except.ok encoded) withAuth (some v) unmarshal =
      if (readBody resp).utf8ByteSize = 0 then (none, some v, steps)
      else
        match unmarshal (readBody resp) v with
        | Except.error err => (some err, some v, steps)
        | Except.ok v1 => (none, some v1, steps) := by
  unfold Client.exchange at hx
  unfold Client.postJSON
  cases hm : cl.makeReq env (cl.serverURL ++ path) encoded withAuth with
  | error e => simp [hm] at hx
  | ok req =>
    simp only [hm] at hx
    have hcode :
        (decide (resp.StatusCode < 200) || decide (resp.StatusCode ≥ 300)) = false := by
      simp only [Bool.or_eq_false_iff, decide_eq_false_iff_not]
      omega
    simp only [hm, hx, hcode, Bool.false_eq_true, if_false]

theorem callResult_error {α : Type} (zero : α) (err : GoError) (v : Option α)
    (steps : List Step) : callResult zero (some err, v, steps) = (Except.error err, steps) := rfl

theorem postJSON_undecodable {α : Type} (env : HTTPEnv) (cl : Client) (ctx : Context)
    (path encoded : String) (withAuth : Bool) (v : α)
    (unmarshal : String → α → Except GoError α) (resp : Response) (steps : List Step)
    (err : GoError)
    (hx : cl.exchange env ctx path encoded withAuth = (Except.ok resp, steps))
    (hu : undecodable2xx unmarshal v resp err) :
    cl.postJSON env ctx path (Except.ok encoded) withAuth (some v) unmarshal =
      (some err, some v, steps) := by
  obtain ⟨h1, h2, h3, h4⟩ := hu
  rw [postJSON_of_exchange env cl ctx path encoded withAuth v unmarshal resp steps hx h1 h2]
  simp only [h3, if_false, h4]

theorem SendBatch_undecodable (env : HTTPEnv) (w : WireCodec) (cl : Client) (ctx : Context)
    (payloads : List Payload) (encoded : String) (resp : Response) (steps : List Step)
    (err : GoError) (hv : cl.validateServerURL env = none)
    (hm : w.marshalBatch payloads = Except.ok encoded)
    (hx : cl.exchange env ctx "/v1/ingest/batch" encoded true = (Except.ok resp, steps))
    (hu : undecodable2xx w.unmarshalBatch BatchResponse.zero resp err) :
    cl.SendBatch env w ctx payloads = (Except.error err, steps) := by
  have h := postJSON_undecodable env cl ctx "/v1/ingest/batch" encoded true BatchResponse.zero
    w.unmarshalBatch resp steps err hx hu
  simp only [Client.SendBatch, hv, hm]
  exact (congrArg (callResult BatchResponse.zero) h).trans (callResult_error _ _ _ _)

theorem SendPayload_undecodable (env : HTTPEnv) (w : WireCodec) (cl : Client) (ctx : Context)
    (payload : Payload) (encoded : String) (resp : Response) (steps : List Step)
    (err : GoError) (hv : cl.validateServerURL env = none)
    (hm : w.marshalPayload payload = Except.ok encoded)
    (hx : cl.exchange env ctx "/v1/ingest" encoded true = (Except.ok resp, steps))
    (hu : undecodable2xx w.unmarshalIngest IngestResponse.zero resp err) :
    cl.SendPayload env w ctx payload = (Except.error err, steps) := by
  have h := postJSON_undecodable env cl ctx "/v1/ingest" encoded true IngestResponse.zero
    w.unmarshalIngest resp steps err hx hu
  simp only [Client.SendPayload, hv, hm]
  exact (congrArg (callResult IngestResponse.zero) h).trans (callResult_error _ _ _ _)

theorem Enroll_undecodable (env : HTTPEnv) (w : WireCodec) (cl : Client) (ctx : Context)
    (token hostname : String) (encoded : String) (resp : Response) (steps : List Step)
    (err : GoError) (hv : cl.validateServerURL env = none)
    (hm : w.marshalEnroll token hostname = Except.ok encoded)
    (hx : cl.exchange env ctx "/v1/enroll" encoded false = (Except.ok resp, steps))
    (hu : undecodable2xx w.unmarshalEnroll EnrollResponse.zero resp err) :
    cl.Enroll env w ctx token hostname = (Except.error err, steps) := by
  have h := postJSON_undecodable env cl ctx "/v1/enroll" encoded false EnrollResponse.zero
    w.unmarshalEnroll resp steps err hx hu
  simp only [Client.Enroll, hv, hm]
  exact (congrArg (callResult EnrollResponse.zero) h).trans (callResult_error _ _ _ _)

theorem postJSON_empty_body {α : Type} (env : HTTPEnv) (cl : Client) (ctx : Context)
    (path encoded : String) (withAuth : Bool) (v : α)
    (unmarshal : String → α → Except GoError α) (resp : Response) (steps : List Step)
    (hx : cl.exchange env ctx path encoded withAuth = (Except.ok resp, steps))
    (h1 : 200 ≤ resp.StatusCode) (h2 : resp.StatusCode < 300)
    (h3 : (readBody resp).utf8ByteSize = 0) :
    cl.postJSON env ctx path (Except.ok encoded) withAuth (some v) unmarshal =
      (none, some v, steps) := by
  rw [postJSON_of_exchange env cl ctx path encoded withAuth v unmarshal resp steps hx h1 h2]
  simp only [h3, if_true]

/-- A send cycle whose batch send fails pushes the current snapshot onto the queue as it
was, and ends. -/
theorem runSend_batch_failed (io : StorageFaults) (c : JSONCodec) (env : CycleEnv) (fs : FS)
    (cfg : Config) (payload : Payload) (items : List Payload) (err : GoError)
    (hcfg : env.loadConfig = Except.ok cfg)
    (hp : buildPayload env cfg.HostID = Except.ok payload)
    (hcount : payloadBuffer.Count io.count c
      (migrateLegacyBufferFile fs defaultBufferPath legacyBufferPath) =
        Except.ok (items.length : Int))
    (hq : payloadBuffer.Flush io.flush c
      (migrateLegacyBufferFile fs defaultBufferPath legacyBufferPath) = Except.ok items)
    (hne : items ≠ [])
    (hbatch : (env.newClient cfg cfg.AllowInsecureLocalhost).SendBatch items =
      Except.error err) :
    (runSend io c env fs).1 =
      (payloadBuffer.Push io.pushRead io.pushWrite c
        (migrateLegacyBufferFile fs defaultBufferPath legacyBufferPath) (some payload)).1 ∧
    (∀ p, Event.sentPayload p ∉ (runSend io c env fs).2) ∧
    ((∀ p ∈ items ++ [payload], c.roundTrips p = true) →
      ((payloadBuffer.Push io.pushRead io.pushWrite c
          (migrateLegacyBufferFile fs defaultBufferPath legacyBufferPath)
          (some payload)).2 = none ∨
        (io.pushRead = noReadFaults ∧ io.pushWrite = noWriteFaults)) →
      payloadBuffer.Flush noReadFaults c (runSend io c env fs).1 =
        Except.ok ((items ++ [payload]).drop (items.length + 1 - 10))) := by
  have hn : (0 : Int) < (items.length : Int) := by
    exact_mod_cast List.length_pos.2 hne
  rw [runSend_eq io c env fs cfg payload hcfg hp,
    sendCycle_backlog io c _ _ _ _ _ items hcount hn hq hne, hbatch]
  refine ⟨rfl, ?_, ?_⟩
  · intro p hp
    simp only [List.mem_cons, List.mem_singleton, List.not_mem_nil, or_false] at hp
    rcases hp with hp | hp
    · cases hp
    · cases hp
  · intro hcodec hpush
    have hpush1 : (payloadBuffer.Push io.pushRead io.pushWrite c
        (migrateLegacyBufferFile fs defaultBufferPath legacyBufferPath)
        (some payload)).2 = none := by
      rcases hpush with h | ⟨hr, hw⟩
      · exact h
      · rw [hr, hw]
        exact (Push_roundTrips c payloadBuffer _ payload items
          (Flush_of_ok _ c payloadBuffer _ items hq) hcodec (by decide)).1
    obtain ⟨-, s2⟩ := Push_stored io.pushRead io.pushWrite c payloadBuffer _ payload items
      (Flush_of_ok _ c payloadBuffer _ items hq) (by decide) hpush1
    simp only
    rw [s2 hcodec, payloadBuffer_maxSize]
    simp [lastN]

/-- C11, as the code has it. After a 2xx response whose body, as the client reads it, is
not empty and does not unmarshal into the response of the call, `postJSON` returns the
error of `json.Unmarshal`, and `SendPayload`, `SendBatch` and `Enroll` return that error;
a send cycle whose batch send ends so does not clear the queue and attempts no single
send, whatever fails in the calls of the operating system: it pushes the current
snapshot onto the queue as it was, and the queue holds the last 10 of the buffered
snapshots and the current one afterwards when that `Push` returns no error, as it does
when nothing fails in it. After a 2xx response whose body is empty `postJSON` unmarshals
nothing and returns no error. -/
theorem undecodable_body_fails_the_call (env : HTTPEnv) (w : WireCodec) :
    (∀ (α : Type) (cl : Client) (ctx : Context) (path encoded : String) (withAuth : Bool)
        (v : α) (unmarshal : String → α → Except GoError α) (resp : Response)
        (steps : List Step),
      cl.exchange env ctx path encoded withAuth = (Except.ok resp, steps) →
      200 ≤ resp.StatusCode → resp.StatusCode < 300 →
      (∀ err, (readBody resp).utf8ByteSize ≠ 0 →
        unmarshal (readBody resp) v = Except.error err →
        cl.postJSON env ctx path (Except.ok encoded) withAuth (some v) unmarshal =
          (some err, some v, steps)) ∧
      ((readBody resp).utf8ByteSize = 0 →
        cl.postJSON env ctx path (Except.ok encoded) withAuth (some v) unmarshal =
          (none, some v, steps))) ∧
    (∀ (cl : Client) (ctx : Context) (payload : Payload) (encoded : String) (resp : Response)
        (steps : List Step) (err : GoError),
      cl.validateServerURL env = none → w.marshalPayload payload = Except.ok encoded →
      cl.exchange env ctx "/v1/ingest" encoded true = (Except.ok resp, steps) →
      undecodable2xx w.unmarshalIngest IngestResponse.zero resp err →
      cl.SendPayload env w ctx payload = (Except.error err, steps)) ∧
    (∀ (cl : Client) (ctx : Context) (payloads : List Payload) (encoded : String)
        (resp : Response) (steps : List Step) (err : GoError),
      cl.validateServerURL env = none → w.marshalBatch payloads = Except.ok encoded →
      cl.exchange env ctx "/v1/ingest/batch" encoded true = (Except.ok resp, steps) →
      undecodable2xx w.unmarshalBatch BatchResponse.zero resp err →
      cl.SendBatch env w ctx payloads = (Except.error err, steps)) ∧
    (∀ (cl : Client) (ctx : Context) (token hostname encoded : String) (resp : Response)
        (steps : List Step) (err : GoError),
      cl.validateServerURL env = none → w.marshalEnroll token hostname = Except.ok encoded →
      cl.exchange env ctx "/v1/enroll" encoded false = (Except.ok resp, steps) →
      undecodable2xx w.unmarshalEnroll EnrollResponse.zero resp err →
      cl.Enroll env w ctx token hostname = (Except.error err, steps)) ∧
    (∀ (io : StorageFaults) (c : JSONCodec) (cenv : CycleEnv) (fs : FS) (cfg : Config)
        (payload : Payload) (items : List Payload) (encoded : String) (resp : Response)
        (steps : List Step) (err : GoError),
      cenv.newClient = newSendClient env w →
      cenv.loadConfig = Except.ok cfg →
      buildPayload cenv cfg.HostID = Except.ok payload →
      payloadBuffer.Count io.count c
        (migrateLegacyBufferFile fs defaultBufferPath legacyBufferPath) =
          Except.ok (items.length : Int) →
      payloadBuffer.Flush io.flush c
        (migrateLegacyBufferFile fs defaultBufferPath legacyBufferPath) = Except.ok items →
      items ≠ [] →
      (NewClientWithOptions cfg cfg.AllowInsecureLocalhost).validateServerURL env = none →
      w.marshalBatch items = Except.ok encoded →
      (NewClientWithOptions cfg cfg.AllowInsecureLocalhost).exchange env Context.Background
        "/v1/ingest/batch" encoded true = (Except.ok resp, steps) →
      undecodable2xx w.unmarshalBatch BatchResponse.zero resp err →
      (runSend io c cenv fs).1 =
        (payloadBuffer.Push io.pushRead io.pushWrite c
          (migrateLegacyBufferFile fs defaultBufferPath legacyBufferPath) (some payload)).1 ∧
      (∀ p, Event.sentPayload p ∉ (runSend io c cenv fs).2) ∧
      ((∀ p ∈ items ++ [payload], c.roundTrips p = true) →
        ((payloadBuffer.Push io.pushRead io.pushWrite c
            (migrateLegacyBufferFile fs defaultBufferPath legacyBufferPath)
            (some payload)).2 = none ∨
          (io.pushRead = noReadFaults ∧ io.pushWrite = noWriteFaults)) →
        payloadBuffer.Flush noReadFaults c (runSend io c cenv fs).1 =
          Except.ok ((items ++ [payload]).drop (items.length + 1 - 10)))) := by
  refine ⟨?_, ?_, ?_, ?_, ?_⟩
  · intro α cl ctx path encoded withAuth v unmarshal resp steps hx h1 h2
    exact ⟨fun err h3 h4 => postJSON_undecodable env cl ctx path encoded withAuth v unmarshal
        resp steps err hx ⟨h1, h2, h3, h4⟩,
      postJSON_empty_body env cl ctx path encoded withAuth v unmarshal resp steps hx h1 h2⟩
  · intro cl ctx payload encoded resp steps err hv hm hx hu
    exact SendPayload_undecodable env w cl ctx payload encoded resp steps err hv hm hx hu
  · intro cl ctx payloads encoded resp steps err hv hm hx hu
    exact SendBatch_undecodable env w cl ctx payloads encoded resp steps err hv hm hx hu
  · intro cl ctx token hostname encoded resp steps err hv hm hx hu
    exact Enroll_undecodable env w cl ctx token hostname encoded resp steps err hv hm hx hu
  · intro io c cenv fs cfg payload items encoded resp steps err hnew hcfg hp hcount hq hne hv
      hm hx hu
    have hb : (cenv.newClient cfg cfg.AllowInsecureLocalhost).SendBatch items =
        Except.error err := by
      rw [hnew]
      simp only [newSendClient]
      rw [SendBatch_undecodable env w _ Context.Background items encoded resp steps err hv hm
        hx hu]
    exact runSend_batch_failed io c cenv fs cfg payload items err hcfg hp hcount hq hne hb

theorem undecodable_body_fails_the_call_witness :
    (NewClientWithOptions sampleConfig false).SendBatch
        (sampleHTTPEnv (fun _ => Except.ok ⟨200, "<html>"⟩)) sampleWire Context.Background
        (samplePayloads 2) =
      (Except.error (GoError.jsonError "invalid"),
        [Step.attempt 0
          { method := "POST", url := "https://monitor.example/v1/ingest/batch",
            contentType := "application/json", authorization := some "Bearer secret",
            body := "\x7b\"snapshots\":[]\x7d" }]) :=
  (undecodable_body_fails_the_call (sampleHTTPEnv (fun _ => Except.ok ⟨200, "<html>"⟩))
    sampleWire).2.2.1 (NewClientWithOptions sampleConfig false) Context.Background
    (samplePayloads 2) "\x7b\"snapshots\":[]\x7d" ⟨200, "<html>"⟩ _ (GoError.jsonError "invalid")
    (by decide) rfl (by decide) ⟨by decide, by decide, by decide, by decide⟩

/-- C11 as stated fails on an empty body: a batch send answered with status 200 and an
empty body, which does not unmarshal, returns no error but the zero response, whose
`Rejected` is 0, and the send cycle clears a queue of two buffered snapshots. -/
theorem empty_body_clears_the_queue :
    sampleWire.unmarshalBatch "" BatchResponse.zero =
      Except.error (GoError.jsonError "invalid") ∧
    ((NewClientWithOptions sampleConfig false).SendBatch
        (sampleHTTPEnv (fun _ => Except.ok ⟨200, ""⟩)) sampleWire Context.Background
        (samplePayloads 2)).1 = Except.ok BatchResponse.zero ∧
    payloadBuffer.Flush noReadFaults sampleCodec (sampleQueue 2) =
      Except.ok (samplePayloads 2) ∧
    (runSend noFaults sampleCodec
        (sampleClientEnv 3 (sampleHTTPEnv (fun _ => Except.ok ⟨200, ""⟩))) (sampleQueue 2)).2 =
      [Event.sentBatch (samplePayloads 2), Event.sentPayload (samplePayload 3)] ∧
    payloadBuffer.Flush noReadFaults sampleCodec
        (runSend noFaults sampleCodec
          (sampleClientEnv 3 (sampleHTTPEnv (fun _ => Except.ok ⟨200, ""⟩)))
          (sampleQueue 2)).1 = Except.ok [] := by
  decide

/-! ## Backoff with jitter -/

theorem roundHalfEven_floor (q : ℚ) :
    roundHalfEven q = ⌊q⌋ ∨ roundHalfEven q = ⌊q⌋ + 1 := by
  unfold roundHalfEven
  split
  · exact Or.inl rfl
  · split
    · exact Or.inr rfl
    · split
      · exact Or.inl rfl
      · exact Or.inr rfl

theorem le_roundHalfEven (n : ℤ) (q : ℚ) (h : (n : ℚ) ≤ q) : n ≤ roundHalfEven q := by
  have hf : n ≤ ⌊q⌋ := Int.le_floor.2 h
  rcases roundHalfEven_floor q with e | e <;> omega

theorem roundHalfEven_le (n : ℤ) (q : ℚ) (h : q ≤ (n : ℚ)) : roundHalfEven q ≤ n := by
  by_cases hn : ⌊q⌋ + 1 ≤ n
  · rcases roundHalfEven_floor q with e | e <;> omega
  · have h1 : (n : ℚ) ≤ (⌊q⌋ : ℚ) := by exact_mod_cast (by omega : n ≤ ⌊q⌋)
    have h2 : (⌊q⌋ : ℚ) ≤ q := Int.floor_le q
    have hq : q - ⌊q⌋ < 1 / 2 := by linarith
    have hfl : ⌊q⌋ ≤ n := Int.floor_le_iff.2 (by linarith)
    simp only [roundHalfEven, hq, if_true]
    exact hfl

/-- Rounding to `float64` keeps a positive rational below `2 ^ 51` within bounds that
are multiples of a quarter. -/
theorem roundPos_bounds (x lo hi : ℚ) (p r : ℤ) (hx : 0 < x) (hlt : x < 2 ^ (51 : ℤ))
    (hlo : lo = p / 4) (hhi : hi = r / 4) (h1 : lo ≤ x) (h2 : x ≤ hi) :
    lo ≤ roundPos x ∧ roundPos x ≤ hi := by
  have he : Int.log 2 x < 51 := by
    have := (Int.lt_zpow_iff_log_lt (b := 2) (by norm_num) hx (x := 51)).1
      (by simpa using hlt)
    exact this
  obtain ⟨k, hk⟩ : ∃ k : ℕ, 52 - Int.log 2 x = (k : ℤ) + 2 :=
    ⟨(50 - Int.log 2 x).toNat, by omega⟩
  have hs : (2 : ℚ) ^ (52 - Int.log 2 x) = 4 * 2 ^ k := by
    rw [hk, zpow_add₀ (by norm_num), zpow_natCast]
    norm_num
    ring
  have hpos : (0 : ℚ) < 4 * 2 ^ k := by positivity
  unfold roundPos
  rw [hs]
  constructor
  · have hn : ((p * 2 ^ k : ℤ) : ℚ) ≤ x * (4 * 2 ^ k) := by
      have : lo * (4 * 2 ^ k) ≤ x * (4 * 2 ^ k) := mul_le_mul_of_nonneg_right h1 hpos.le
      rw [hlo] at this
      push_cast
      linarith [this, show (p : ℚ) / 4 * (4 * 2 ^ k) = p * 2 ^ k by ring]
    have := le_roundHalfEven _ _ hn
    rw [le_div_iff₀ hpos, hlo]
    have hc : ((p * 2 ^ k : ℤ) : ℚ) ≤ (roundHalfEven (x * (4 * 2 ^ k)) : ℚ) := by
      exact_mod_cast this
    push_cast at hc
    linarith [hc, show (p : ℚ) / 4 * (4 * 2 ^ k) = p * 2 ^ k by ring]
  · have hn : x * (4 * 2 ^ k) ≤ ((r * 2 ^ k : ℤ) : ℚ) := by
      have : x * (4 * 2 ^ k) ≤ hi * (4 * 2 ^ k) := mul_le_mul_of_nonneg_right h2 hpos.le
      rw [hhi] at this
      push_cast
      linarith [this, show (r : ℚ) / 4 * (4 * 2 ^ k) = r * 2 ^ k by ring]
    have := roundHalfEven_le _ _ hn
    rw [div_le_iff₀ hpos, hhi]
    have hc : (roundHalfEven (x * (4 * 2 ^ k)) : ℚ) ≤ ((r * 2 ^ k : ℤ) : ℚ) := by
      exact_mod_cast this
    push_cast at hc
    linarith [hc, show (r : ℚ) / 4 * (4 * 2 ^ k) = r * 2 ^ k by ring]

theorem toFloat64_bounds (x lo hi : ℚ) (p r : ℤ) (hx : 0 ≤ x) (hlt : x < 2 ^ (51 : ℤ))
    (hlo : lo = p / 4) (hhi : hi = r / 4) (h1 : lo ≤ x) (h2 : x ≤ hi) :
    lo ≤ toFloat64 x ∧ toFloat64 x ≤ hi := by
  unfold toFloat64
  rcases hx.lt_or_eq with h | h
  · simp only [h, if_true]
    exact roundPos_bounds x lo hi p r h hlt hlo hhi h1 h2
  · subst h
    simp only [lt_self_iff_false, if_false]
    exact ⟨h1, h2⟩

theorem jitterOf_bounds (r : ℚ) (h0 : 0 ≤ r) (h1 : r < 1) :
    3 / 4 ≤ jitterOf r ∧ jitterOf r ≤ 5 / 4 := by
  obtain ⟨a1, a2⟩ := toFloat64_bounds (r * (1 / 2)) 0 (1 / 2) 0 2 (by linarith)
    (by norm_num; linarith) (by norm_num) (by norm_num) (by linarith) (by linarith)
  exact toFloat64_bounds (3 / 4 + toFloat64 (r * (1 / 2))) (3 / 4) (5 / 4) 3 5 (by linarith)
    (by norm_num; linarith) (by norm_num) (by norm_num) (by linarith) (by linarith)

theorem wrapInt64_base (a : Nat) (ha : a ≤ 2) :
    wrapInt64 (1000000000 * 2 ^ a) = 1000000000 * 2 ^ a := by
  interval_cases a <;> decide

theorem backoffWithJitter_bounds (a : Nat) (r : ℚ) (ha : a ≤ 2) (h0 : 0 ≤ r) (h1 : r < 1) :
    750000000 * 2 ^ a ≤ backoffWithJitter a r ∧
      backoffWithJitter a r ≤ 1250000000 * 2 ^ a := by
  obtain ⟨j1, j2⟩ := jitterOf_bounds r h0 h1
  have h51 : (2 : ℚ) ^ (51 : ℤ) = 2251799813685248 := by norm_num
  have hB1 : (0 : ℚ) < ((1000000000 * 2 ^ a : ℤ) : ℚ) := by positivity
  have hB2 : ((1000000000 * 2 ^ a : ℤ) : ℚ) ≤ 4000000000 := by
    interval_cases a <;> norm_num
  obtain ⟨b1, b2⟩ := toFloat64_bounds ((1000000000 * 2 ^ a : ℤ) : ℚ)
    ((1000000000 * 2 ^ a : ℤ) : ℚ) ((1000000000 * 2 ^ a : ℤ) : ℚ)
    (4 * (1000000000 * 2 ^ a)) (4 * (1000000000 * 2 ^ a)) hB1.le
    (by rw [h51]; linarith) (by push_cast; ring) (by push_cast; ring) le_rfl le_rfl
  have hb : toFloat64 ((1000000000 * 2 ^ a : ℤ) : ℚ) = ((1000000000 * 2 ^ a : ℤ) : ℚ) :=
    le_antisymm b2 b1
  have hprod1 : (((750000000 * 2 ^ a : ℤ) : ℚ)) ≤
      ((1000000000 * 2 ^ a : ℤ) : ℚ) * jitterOf r := by
    have := mul_le_mul_of_nonneg_left j1 hB1.le
    push_cast at this ⊢
    linarith
  have hprod2 : ((1000000000 * 2 ^ a : ℤ) : ℚ) * jitterOf r ≤
      ((1250000000 * 2 ^ a : ℤ) : ℚ) := by
    have := mul_le_mul_of_nonneg_left j2 hB1.le
    push_cast at this ⊢
    linarith
  have hlo0 : (0 : ℚ) ≤ ((750000000 * 2 ^ a : ℤ) : ℚ) := by positivity
  have hhi : ((1250000000 * 2 ^ a : ℤ) : ℚ) ≤ 5000000000 := by
    interval_cases a <;> norm_num
  obtain ⟨c1, c2⟩ := toFloat64_bounds (((1000000000 * 2 ^ a : ℤ) : ℚ) * jitterOf r)
    ((750000000 * 2 ^ a : ℤ) : ℚ) ((1250000000 * 2 ^ a : ℤ) : ℚ)
    (4 * (750000000 * 2 ^ a)) (4 * (1250000000 * 2 ^ a)) (by linarith)
    (by rw [h51]; linarith) (by push_cast; ring) (by push_cast; ring) hprod1 hprod2
  have hnn : (0 : ℚ) ≤ toFloat64 (((1000000000 * 2 ^ a : ℤ) : ℚ) * jitterOf r) := by
    linarith
  simp only [backoffWithJitter, wrapInt64_base a ha, hb, truncate, hnn, if_true]
  exact ⟨Int.le_floor.2 c1, Int.floor_le_iff.2 (by linarith [c2])⟩

theorem totalBackoff_single (draws : Nat → ℚ) (a : Nat) (req : Request) :
    totalBackoff draws [Step.attempt a req] = 0 := by
  simp [totalBackoff]

theorem totalBackoff_cons_cons (draws : Nat → ℚ) (a : Nat) (req : Request)
    (steps : List Step) :
    totalBackoff draws (Step.attempt a req :: Step.backoff a :: steps) =
      backoffWithJitter a (draws a) + totalBackoff draws steps := by
  simp [totalBackoff]

/-- The backoffs of the loop from the attempt with index `a` on, with 3 retries, take no
more than the longest backoffs after the attempts `a` to 2 together. -/
theorem totalBackoff_retryLoop (env : HTTPEnv) (ctx : Context) (req : Request)
    (draws : Nat → ℚ) (hd : ∀ i, 0 ≤ draws i ∧ draws i < 1) (remaining : Nat) :
    ∀ a : Nat, a + remaining = 4 → 1 ≤ remaining →
      0 ≤ totalBackoff draws (retryLoop env ctx req 3 remaining a).2 ∧
      totalBackoff draws (retryLoop env ctx req 3 remaining a).2 ≤
        1250000000 * (8 - 2 ^ a) := by
  induction remaining with
  | zero => intro a _ h; omega
  | succ n ih =>
    intro a ha _
    have ha3 : a ≤ 3 := by omega
    have hbound : (0 : Int) ≤ 1250000000 * (8 - 2 ^ a) := by
      interval_cases a <;> decide
    have hwait : (a : Int) ≠ 3 →
        0 ≤ totalBackoff draws
          (match ctx.doneDuring a with
            | some e => (Except.error (GoError.contextErr e), [Step.attempt a req])
            | none =>
              ((retryLoop env ctx req 3 n (a + 1)).1,
                Step.attempt a req :: Step.backoff a ::
                  (retryLoop env ctx req 3 n (a + 1)).2)).2 ∧
        totalBackoff draws
          (match ctx.doneDuring a with
            | some e => (Except.error (GoError.contextErr e), [Step.attempt a req])
            | none =>
              ((retryLoop env ctx req 3 n (a + 1)).1,
                Step.attempt a req :: Step.backoff a ::
                  (retryLoop env ctx req 3 n (a + 1)).2)).2 ≤ 1250000000 * (8 - 2 ^ a) := by
      intro hne
      have ha2 : a ≤ 2 := by omega
      cases ctx.doneDuring a with
      | some e => simp only [totalBackoff_single]; exact ⟨le_rfl, hbound⟩
      | none =>
        obtain ⟨i1, i2⟩ := ih (a + 1) (by omega) (by omega)
        obtain ⟨b1, b2⟩ := backoffWithJitter_bounds a (draws a) ha2 (hd a).1 (hd a).2
        have hpow : (0 : Int) ≤ 750000000 * 2 ^ a := by positivity
        simp only [totalBackoff_cons_cons]
        rw [pow_succ] at i2
        constructor
        · omega
        · omega
    rw [retryLoop]
    cases env.roundTrip req a with
    | ok resp =>
      simp only
      split
      · simp only [totalBackoff_single]; exact ⟨le_rfl, hbound⟩
      · split
        · simp only [totalBackoff_single]; exact ⟨le_rfl, hbound⟩
        · rename_i hne
          exact hwait hne
    | error err =>
      simp only
      split
      · simp only [totalBackoff_single]; exact ⟨le_rfl, hbound⟩
      · split
        · simp only [totalBackoff_single]; exact ⟨le_rfl, hbound⟩
        · rename_i hne
          exact hwait hne

/-- C13. For an attempt index `a` of 0, 1 or 2 and a value `r` of `rand.Float64()`, which
lies in `[0, 1)`, the jitter factor computed in `float64` arithmetic lies in
`[0.75, 1.25]`, and the delay `backoffWithJitter(a)` lies between `0.75 * 2^a` and
`1.25 * 2^a` seconds, so that it is `2^a` seconds times a factor in `[0.75, 1.25]`; the
backoffs of one call of `doWithRetry` with 3 retries take at most 8.75 seconds together.
Durations are in nanoseconds. -/
theorem backoffWithJitter_within_jitter :
    (∀ (a : Nat) (r : ℚ), a ≤ 2 → 0 ≤ r → r < 1 →
      3 / 4 ≤ jitterOf r ∧ jitterOf r ≤ 5 / 4 ∧
      750000000 * 2 ^ a ≤ backoffWithJitter a r ∧
      backoffWithJitter a r ≤ 1250000000 * 2 ^ a ∧
      ∃ f : ℚ, 3 / 4 ≤ f ∧ f ≤ 5 / 4 ∧
        (backoffWithJitter a r : ℚ) = 2 ^ a * 1000000000 * f) ∧
    (∀ (env : HTTPEnv) (cl : Client) (ctx : Context) (req : Request) (draws : Nat → ℚ),
      (∀ i, 0 ≤ draws i ∧ draws i < 1) →
      0 ≤ totalBackoff draws (cl.doWithRetry env ctx req 3).2 ∧
      totalBackoff draws (cl.doWithRetry env ctx req 3).2 ≤ 8750000000) := by
  constructor
  · intro a r ha h0 h1
    obtain ⟨j1, j2⟩ := jitterOf_bounds r h0 h1
    obtain ⟨b1, b2⟩ := backoffWithJitter_bounds a r ha h0 h1
    refine ⟨j1, j2, b1, b2, (backoffWithJitter a r : ℚ) / (2 ^ a * 1000000000), ?_, ?_, ?_⟩
    · rw [le_div_iff₀ (by positivity)]
      have : ((750000000 * 2 ^ a : ℤ) : ℚ) ≤ (backoffWithJitter a r : ℚ) := by
        exact_mod_cast b1
      push_cast at this
      linarith
    · rw [div_le_iff₀ (by positivity)]
      have : (backoffWithJitter a r : ℚ) ≤ ((1250000000 * 2 ^ a : ℤ) : ℚ) := by
        exact_mod_cast b2
      push_cast at this
      linarith
    · field_simp
  · intro env cl ctx req draws hd
    have h4 : ((3 : Int) + 1).toNat = 4 := by decide
    simp only [Client.doWithRetry, h4]
    obtain ⟨t1, t2⟩ := totalBackoff_retryLoop env ctx req draws hd 4 0 (by decide) (by decide)
    exact ⟨t1, by simpa using t2⟩

theorem backoffWithJitter_within_jitter_witness :
    1500000000 ≤ backoffWithJitter 1 0 ∧ backoffWithJitter 1 0 ≤ 2500000000 :=
  ⟨(backoffWithJitter_within_jitter.1 1 0 (by decide) le_rfl zero_lt_one).2.2.1,
    (backoffWithJitter_within_jitter.1 1 0 (by decide) le_rfl zero_lt_one).2.2.2.1⟩

end MightyMonitor
